import Mathlib

/-!
# go-libiec61850: value-tree builder and dataset explainer

A shallow embedding of `iec61850/iec61850_client.go`:

* `resolveValue`, `resolveValueInline`, `digIntoStructure`,
  `digIntoStructureOptimized` (the typed value tree builder),
* `findDAName`, `ExplainDataSetValues` (the dataset explainer).

Conventions of the embedding.

* A Go slice is a `List`; the nil slice and the empty slice are both `[]`
  (the code only ever takes `len` of, ranges over, or indexes a slice).
* A Go `interface{}` payload is a `GoValue`, one constructor per dynamic type
  the code stores in it.
* A Go `map[string]interface{}` is the sequence of its assignments, oldest
  first (`GoMap`); a lookup answers with the most recent assignment of the key.
* The C side (`*C.MmsValue`) is a finite tree that records what every accessor
  of libiec61850 answers for the node.
-/

namespace Iec61850

/-! ## Data model -/

/-- The MMS type tags the client switches on (`MMSType`); `other` stands for
every tag of the C enumeration that the switch does not name. -/
inductive MMSType where
  | MMS_ARRAY
  | MMS_STRUCTURE
  | MMS_BOOLEAN
  | MMS_BIT_STRING
  | MMS_INTEGER
  | MMS_UNSIGNED
  | MMS_FLOAT
  | MMS_VISIBLE_STRING
  | MMS_STRING
  | MMS_UTC_TIME
  | other (code : Nat)
  deriving DecidableEq, Repr

open MMSType

mutual
/-- Dynamic content of the `Value interface{}` field of `GoMmsValue`.
`float64` carries the IEEE-754 bit pattern, `int` is the dynamic type of the
untyped constant `0`, `slice` is `[]GoMmsValue`. -/
inductive GoValue where
  | nil
  | bool (b : Bool)
  | float64 (bits : Nat)
  | int64 (i : Int)
  | string (s : String)
  | uint32 (n : Nat)
  | int (i : Int)
  | slice (xs : List GoMmsValue)
/-- Go `type GoMmsValue struct { Type MMSType; Value interface{} }`. -/
inductive GoMmsValue where
  | mk (Type_ : MMSType) (Value : GoValue)
end

/-- Field `Type` of a `GoMmsValue` (`Type` is reserved in Lean). -/
def GoMmsValue.Type_ : GoMmsValue → MMSType
  | .mk t _ => t

/-- Field `Value` of a `GoMmsValue`. -/
def GoMmsValue.Value : GoMmsValue → GoValue
  | .mk _ v => v

/-- Whether the payload has dynamic type `[]GoMmsValue`. -/
def GoValue.isSlice : GoValue → Bool
  | .slice _ => true
  | _ => false

/-- Go `map[string]interface{}`: its assignments, oldest first. -/
abbrev GoMap := List (String × GoValue)

/-- Assignment `ret[key] = value`. -/
def GoMap.set (ret : GoMap) (key : String) (value : GoValue) : GoMap :=
  ret ++ [(key, value)]

/-- Lookup `ret[key]`: the most recent assignment of `key`, if any. -/
def GoMap.get (ret : GoMap) (key : String) : Option GoValue :=
  (ret.reverse.find? (fun kv => kv.1 = key)).map (fun kv => kv.2)

/-- The fields of `scl_xml.DA` the client reads. -/
structure DA where
  Name : String
  FC : String

/-- The data object type `GetDOType` answers with; the client reads its `DA`
list only. -/
structure DOType where
  DA : List DA

/-- The fields of one `scl_xml` FCDA entry the client reads. -/
structure FCDA where
  LDInst : String
  Prefix : String
  LNClass : String
  LNInst : String
  DOName : String
  DAName : String

/-- The parts of `scl_xml.DataSetDetail` the client uses. The package
`scl_xml` is outside the embedded file, so its method `GetDOType` is a field:
any lookup of a data object type by prefix, class and data object name. -/
structure DataSetDetail where
  IEDName : String
  FCDA : List FCDA
  GetDOType : String → String → String → DOType

/-! ## Dataset explainer -/

/-- Loop of `findDAName`: `realIndex` counts the attributes with functional
constraint `MX` or `ST` passed so far. -/
def findDANameLoop : List DA → Int → Int → String
  | [], _, _ => ""
  | da :: rest, realIndex, index =>
    if da.FC ≠ "MX" ∧ da.FC ≠ "ST" then
      findDANameLoop rest realIndex index
    else if realIndex = index then
      da.Name
    else
      findDANameLoop rest (realIndex + 1) index

/-- Go `findDAName(das, index)`; the warning printed before `return ""` has
no effect on the result. -/
def findDAName (das : List DA) (index : Int) : String :=
  findDANameLoop das 0 index

/-- Inner loop of `ExplainDataSetValues`, `for i, v := range valueList`, from
position `i` on. `builder` is the content of the `strings.Builder`, which the
loop body only ever appends to. -/
def explainValueList (doTyp : DOType) : List GoMmsValue → Nat → String → GoMap → GoMap
  | [], _, _, ret => ret
  | v :: rest, i, builder, ret =>
    let builder :=
      if doTyp.DA.length > i + 1 then
        builder ++ "." ++ findDAName doTyp.DA i
      else
        builder ++ "." ++ toString i
    match v.Value with
    | .slice rv =>
      match rv with
      | [rv0] => explainValueList doTyp rest (i + 1) builder (ret.set builder rv0.Value)
      | _ => explainValueList doTyp rest (i + 1) builder ret
    | _ => explainValueList doTyp rest (i + 1) builder (ret.set builder v.Value)

/-- Outer loop of `ExplainDataSetValues`, `for idx, entity := range
dSetScl.FCDA`, from position `idx` on. An index `values[idx]` out of range
is the Go run-time panic. -/
def explainEntities (dSetScl : DataSetDetail) (values : List GoMmsValue) :
    List FCDA → Nat → GoMap → Except String GoMap
  | [], _, ret => .ok ret
  | entity :: rest, idx, ret =>
    let builder :=
      dSetScl.IEDName ++ entity.LDInst ++ "/" ++ entity.Prefix ++ entity.LNClass
        ++ entity.LNInst ++ "." ++ entity.DOName
    match values[idx]? with
    | none => .error "panic: index out of range"
    | some val =>
      if entity.DAName ≠ "" then
        explainEntities dSetScl values rest (idx + 1)
          (ret.set (builder ++ "." ++ entity.DAName) val.Value)
      else
        match val.Value with
        | .slice valueList =>
          let doTyp := dSetScl.GetDOType entity.Prefix entity.LNClass entity.DOName
          explainEntities dSetScl values rest (idx + 1)
            (explainValueList doTyp valueList 0 builder ret)
        | _ => explainEntities dSetScl values rest (idx + 1) ret

/-- Go `(*IedClient).ExplainDataSetValues(values, dSetScl)`; the receiver is
not used. `.error e` is the return `(nil, e)`, `.ok ret` is `(ret, nil)`. -/
def ExplainDataSetValues (values : List GoMmsValue) (dSetScl : DataSetDetail) :
    Except String GoMap :=
  if dSetScl.FCDA.length ≠ values.length then
    .error "error dataset scl"
  else
    explainEntities dSetScl values dSetScl.FCDA 0 []

/-! ## The protocol value adapter (C side) -/

/-- A decoded `*C.MmsValue`: the node records what each libiec61850 accessor
answers for it. `double` is an IEEE-754 bit pattern, `string` is `none` when
`MmsValue_toString` answers the NULL pointer, `elements` are the values
`MmsValue_getElement` answers for the indices `0, 1, ...` before NULL. -/
inductive MmsValue where
  | mk (type : MMSType) (boolean : Bool) (double : Nat) (int64 : Int)
      (string : Option String) (bitString : Nat) (utcTime : Nat)
      (elements : List MmsValue)

/-- C `MmsValue_getType`. -/
def MmsValue_getType : MmsValue → MMSType
  | .mk t _ _ _ _ _ _ _ => t

/-- C `MmsValue_getBoolean`. -/
def MmsValue_getBoolean : MmsValue → Bool
  | .mk _ b _ _ _ _ _ _ => b

/-- C `MmsValue_toDouble`. -/
def MmsValue_toDouble : MmsValue → Nat
  | .mk _ _ d _ _ _ _ _ => d

/-- C `MmsValue_toInt64`. -/
def MmsValue_toInt64 : MmsValue → Int
  | .mk _ _ _ i _ _ _ _ => i

/-- C `MmsValue_toString`; `none` is the NULL pointer. -/
def MmsValue_toString : MmsValue → Option String
  | .mk _ _ _ _ s _ _ _ => s

/-- C `MmsValue_getBitStringAsInteger`, a `uint32_t`. -/
def MmsValue_getBitStringAsInteger : MmsValue → Nat
  | .mk _ _ _ _ _ b _ _ => b % 2 ^ 32

/-- C `MmsValue_toUnixTimestamp`, a `uint32_t`. -/
def MmsValue_toUnixTimestamp : MmsValue → Nat
  | .mk _ _ _ _ _ _ u _ => u % 2 ^ 32

/-- The elements of a node. -/
def MmsValue.elements : MmsValue → List MmsValue
  | .mk _ _ _ _ _ _ _ es => es

/-- C `MmsValue_getElement(mms, index)`; `none` is the NULL pointer answered
past the last element. The index is a C `int`; the element count of a decoded
value is a C `int` as well, so the Go index never wraps before NULL comes. -/
def MmsValue_getElement (mms : MmsValue) (index : Nat) : Option MmsValue :=
  mms.elements[index]?

/-! ## Typed value tree builder -/

/-- The part of `IedClient` the builder reads. The connection handle is not
modelled. -/
structure IedClient where
  withoutTimestamps : Bool

/-- Go `WithoutTimestamps(flag)`, an `Option` of the client. -/
def WithoutTimestamps (flag : Bool) : IedClient → IedClient :=
  fun c => { c with withoutTimestamps := flag }

/-- Go `NewIedClient(options...)`: the fresh client has the flag unset, each
non-nil option is applied in turn (`none` is the nil option). -/
def NewIedClient (options : List (Option (IedClient → IedClient))) : IedClient :=
  options.foldl
    (fun client op =>
      match op with
      | some f => f client
      | none => client)
    { withoutTimestamps := false }

/-- Go `C.GoString`: the NULL pointer converts to the empty string. -/
def GoString : Option String → String
  | none => ""
  | some s => s

/-- Go `cStringToGoString`: NULL and the empty C string give `""`, every other
C string is copied. -/
def cStringToGoString (cStr : Option String) : String :=
  match cStr with
  | none => ""
  | some s => if s.length = 0 then "" else s

/-- An element of a node is smaller than the node. -/
theorem sizeOf_lt_of_getElement {mms value : MmsValue} {index : Nat}
    (h : MmsValue_getElement mms index = some value) : sizeOf value < sizeOf mms := by
  cases mms with
  | mk t b d i s bs u es =>
    have hmem : value ∈ es := by
      simp only [MmsValue_getElement, MmsValue.elements] at h
      exact List.getElem?_mem h
    have := List.sizeOf_lt_of_mem hmem
    simp only [MmsValue.mk.sizeOf_spec]
    omega

/-- An index that has an element is below the element count. -/
theorem lt_length_of_getElement {mms value : MmsValue} {index : Nat}
    (h : MmsValue_getElement mms index = some value) : index < mms.elements.length := by
  simp only [MmsValue_getElement] at h
  by_contra hc
  rw [List.getElem?_eq_none (by omega)] at h
  cases h

mutual
/-- Go `(*IedClient).resolveValue(value, valueType)`. A switch that names no
case for the tag leaves `goValue` nil. -/
def resolveValue (client : IedClient) (value : MmsValue) (valueType : MMSType) : GoValue :=
  match valueType with
  | MMS_BOOLEAN => .bool (MmsValue_getBoolean value)
  | MMS_FLOAT => .float64 (MmsValue_toDouble value)
  | MMS_INTEGER => .int64 (MmsValue_toInt64 value)
  | MMS_UNSIGNED => .int64 (MmsValue_toInt64 value)
  | MMS_STRING => .string (GoString (MmsValue_toString value))
  | MMS_VISIBLE_STRING => .string (GoString (MmsValue_toString value))
  | MMS_STRUCTURE => .slice (digIntoStructure client value valueType)
  | MMS_ARRAY => .slice (digIntoStructure client value valueType)
  | MMS_BIT_STRING =>
    if client.withoutTimestamps then .int 0
    else .uint32 (MmsValue_getBitStringAsInteger value % 2 ^ 32)
  | MMS_UTC_TIME =>
    if client.withoutTimestamps then .int 0
    else .uint32 (MmsValue_toUnixTimestamp value % 2 ^ 32)
  | other _ => .nil
termination_by (sizeOf value, value.elements.length + 2)
decreasing_by
  all_goals exact Prod.Lex.right _ (by omega)

/-- Go `(*IedClient).digIntoStructure(mms, vType)`. -/
def digIntoStructure (client : IedClient) (mms : MmsValue) (vType : MMSType) :
    List GoMmsValue :=
  if vType ≠ MMS_STRUCTURE then []
  else digIntoStructureLoop client 0 [] mms
termination_by (sizeOf mms, mms.elements.length + 1)
decreasing_by
  simp_wf
  exact Prod.Lex.right _ (by omega)

/-- The `for` loop of `digIntoStructure` over the elements of `mms`, entered
with `index` and `goValues` (the loop variables come first, the value whose
elements are read comes last). -/
def digIntoStructureLoop (client : IedClient) (index : Nat) (goValues : List GoMmsValue)
    (mms : MmsValue) : List GoMmsValue :=
  match h : MmsValue_getElement mms index with
  | none => goValues
  | some value =>
    let valueType := MmsValue_getType value
    digIntoStructureLoop client (index + 1)
      (goValues ++ [.mk valueType (resolveValue client value valueType)]) mms
termination_by (sizeOf mms, mms.elements.length - index)
decreasing_by
  · exact Prod.Lex.left _ _ (sizeOf_lt_of_getElement h)
  · have := lt_length_of_getElement h
    exact Prod.Lex.right _ (by omega)
end

/-- The write `goValues[index].Value = v` that `resolveValueInline` performs
through its `target` pointer. The loop of `digIntoStructureOptimized` keeps
`len(goValues) = index + 1` at this point, so the index is in range. -/
def setValueAt : List GoMmsValue → Nat → GoValue → List GoMmsValue
  | [], _, _ => []
  | g :: rest, 0, v => .mk g.Type_ v :: rest
  | g :: rest, index + 1, v => g :: setValueAt rest index v

mutual
/-- Go `(*IedClient).resolveValueInline(target, value, valueType)`: the result
is the value the call leaves in `target.Value` (every branch of the switch
assigns it). -/
def resolveValueInline (client : IedClient) (value : MmsValue) (valueType : MMSType) :
    GoValue :=
  match valueType with
  | MMS_BOOLEAN => .bool (MmsValue_getBoolean value)
  | MMS_FLOAT => .float64 (MmsValue_toDouble value)
  | MMS_INTEGER => .int64 (MmsValue_toInt64 value)
  | MMS_UNSIGNED => .int64 (MmsValue_toInt64 value)
  | MMS_STRING =>
    match MmsValue_toString value with
    | some cStr => .string (cStringToGoString (some cStr))
    | none => .string ""
  | MMS_VISIBLE_STRING =>
    match MmsValue_toString value with
    | some cStr => .string (cStringToGoString (some cStr))
    | none => .string ""
  | MMS_STRUCTURE => .slice (digIntoStructureOptimized client value valueType)
  | MMS_ARRAY => .slice (digIntoStructureOptimized client value valueType)
  | MMS_BIT_STRING =>
    if client.withoutTimestamps then .int 0
    else .uint32 (MmsValue_getBitStringAsInteger value % 2 ^ 32)
  | MMS_UTC_TIME =>
    if client.withoutTimestamps then .int 0
    else .uint32 (MmsValue_toUnixTimestamp value % 2 ^ 32)
  | other _ => .nil
termination_by (sizeOf value, value.elements.length + 2)
decreasing_by
  all_goals exact Prod.Lex.right _ (by omega)

/-- Go `(*IedClient).digIntoStructureOptimized(mms, vType)`; the capacity 32
of the initial slice is not observable. -/
def digIntoStructureOptimized (client : IedClient) (mms : MmsValue) (vType : MMSType) :
    List GoMmsValue :=
  if vType ≠ MMS_STRUCTURE then []
  else digIntoStructureOptimizedLoop client 0 [] mms
termination_by (sizeOf mms, mms.elements.length + 1)
decreasing_by
  simp_wf
  exact Prod.Lex.right _ (by omega)

/-- The `for` loop of `digIntoStructureOptimized` over the elements of `mms`,
entered with `index` and `goValues` (the loop variables come first, the value
whose elements are read comes last). -/
def digIntoStructureOptimizedLoop (client : IedClient) (index : Nat) (goValues : List GoMmsValue)
    (mms : MmsValue) : List GoMmsValue :=
  match h : MmsValue_getElement mms index with
  | none => goValues
  | some value =>
    let valueType := MmsValue_getType value
    let goValues := goValues ++ [.mk valueType .nil]
    digIntoStructureOptimizedLoop client (index + 1)
      (setValueAt goValues index (resolveValueInline client value valueType)) mms
termination_by (sizeOf mms, mms.elements.length - index)
decreasing_by
  · exact Prod.Lex.left _ _ (sizeOf_lt_of_getElement h)
  · have := lt_length_of_getElement h
    exact Prod.Lex.right _ (by omega)
end

/-! ## Structural model walker -/

/-- What one directory call of libiec61850 hands back: the elements of the
returned `LinkedList`, in the order `LinkedList_getNext` walks them, and the
`IedClientError` the call writes (`0` is `IED_ERROR_OK`). Every call writes the
error variable. The client walks the list of
`IedConnection_getLogicalNodeDirectory` without testing the error, so the list
stands alongside the error code also for a failed call; nothing is assumed
about what a failed call hands back. -/
structure Fetch where
  list : List String
  clientError : Nat

/-- The directory calls of the connection the walker uses, each by the
reference it is called with (`getLogicalNodeDirectory` always with
`ACSI_CLASS_DATA_OBJECT`). -/
structure IedConnection where
  getLogicalDeviceList : Fetch
  getLogicalDeviceDirectory : String → Fetch
  getLogicalNodeDirectory : String → Fetch
  getDataDirectory : String → Fetch

/-- Go `scl_xml.Val`, the field the walker writes. -/
structure Val where
  Value : String

mutual
/-- Go `scl_xml.DAI`, the fields the walker writes. -/
inductive DAI where
  | mk (Name : String) (Val : Val) (SDI : List SDI)
/-- Go `scl_xml.SDI`, the fields the walker writes. -/
inductive SDI where
  | mk (Name : String) (DAI : List DAI) (SDI : List SDI)
end

/-- Go `scl_xml.DOI`, the fields the walker writes. -/
structure DOI where
  Name : String
  DAI : List DAI

/-- Go `scl_xml.LN`, the fields the walker writes. -/
structure LN where
  Inst : String
  DOI : List DOI

/-- Go `scl_xml.LDevice`, the fields the walker writes. -/
structure LDevice where
  Inst : String
  LN : List LN

/-- Go `scl_xml.AccessPoint`, the fields the walker writes. -/
structure AccessPoint where
  Name : String
  LDevice : List LDevice

/-- Go `scl_xml.IED`, the fields the walker writes. -/
structure IED where
  Name : String
  AccessPoint : List AccessPoint

/-- Go `scl_xml.SCL`, the field the walker writes. -/
structure SCL where
  IED : List IED

/-- The `for` loop of `BrowseDataAttributesSCL` over the attribute names left,
entered with `dais`; `browseSDI` is the recursive call `client.BrowseSDISCL`.
`none` is a recursion cut short by the fuel. -/
def browseAttributes (browseSDI : String → Option (List SDI)) (ref : String) :
    List String → List DAI → Option (List DAI)
  | [], dais => some dais
  | attributeName :: rest, dais =>
    let childRef := ref ++ "." ++ attributeName
    match browseSDI childRef with
    | none => none
    | some sdi =>
      browseAttributes browseSDI ref rest (dais ++ [.mk attributeName ⟨"SomeValue"⟩ sdi])

/-- The `for` loop of `BrowseSDISCL` over the names left, entered with `sdis`;
`browseDAI` and `browseSDI` are the recursive calls
`client.BrowseDataAttributesSCL` and `client.BrowseSDISCL`. -/
def browseSubdataObjects (browseDAI : String → Option (List DAI))
    (browseSDI : String → Option (List SDI)) (ref : String) :
    List String → List SDI → Option (List SDI)
  | [], sdis => some sdis
  | sdoName :: rest, sdis =>
    let childRef := ref ++ "." ++ sdoName
    match browseDAI childRef with
    | none => none
    | some dai =>
      match browseSDI childRef with
      | none => none
      | some sdi =>
        browseSubdataObjects browseDAI browseSDI ref rest (sdis ++ [.mk sdoName dai sdi])

mutual
/-- Go `(*IedClient).BrowseDataAttributesSCL(ref)` on the client's connection.
The Go recursion has no bound of its own; `fuel` bounds its depth, and `none`
is a walk cut short by the fuel. -/
def BrowseDataAttributesSCL (connection : IedConnection) : Nat → String → Option (List DAI)
  | 0, _ => none
  | fuel + 1, ref =>
    let attributes := connection.getDataDirectory ref
    if attributes.clientError ≠ 0 then some []
    else browseAttributes (BrowseSDISCL connection fuel) ref attributes.list []
/-- Go `(*IedClient).BrowseSDISCL(ref)` on the client's connection, with the
same fuel. -/
def BrowseSDISCL (connection : IedConnection) : Nat → String → Option (List SDI)
  | 0, _ => none
  | fuel + 1, ref =>
    let subdataObjects := connection.getDataDirectory ref
    if subdataObjects.clientError ≠ 0 then some []
    else browseSubdataObjects (BrowseDataAttributesSCL connection fuel)
      (BrowseSDISCL connection fuel) ref subdataObjects.list []
end

/-- The innermost loop of `BrowseModelToSCL`, over the data object names left
of one logical node, entered with `ln`. -/
def browseDataObjects (connection : IedConnection) (fuel : Nat)
    (deviceName logicalNodeName : String) : List String → LN → Option LN
  | [], ln => some ln
  | dataObjectName :: rest, ln =>
    match BrowseDataAttributesSCL connection fuel
        (deviceName ++ "/" ++ logicalNodeName ++ "." ++ dataObjectName) with
    | none => none
    | some dai =>
      browseDataObjects connection fuel deviceName logicalNodeName rest
        { ln with DOI := ln.DOI ++ [{ Name := dataObjectName, DAI := dai }] }

/-- The loop of `BrowseModelToSCL` over the logical node names left of one
logical device, entered with `lDevice`. The error of
`IedConnection_getLogicalNodeDirectory` is not tested. -/
def browseLogicalNodes (connection : IedConnection) (fuel : Nat) (deviceName : String) :
    List String → LDevice → Option LDevice
  | [], lDevice => some lDevice
  | logicalNodeName :: rest, lDevice =>
    let ln : LN := { Inst := logicalNodeName, DOI := [] }
    let lnRef := deviceName ++ "/" ++ logicalNodeName
    let dataObjects := connection.getLogicalNodeDirectory lnRef
    match browseDataObjects connection fuel deviceName logicalNodeName dataObjects.list ln with
    | none => none
    | some ln =>
      browseLogicalNodes connection fuel deviceName rest
        { lDevice with LN := lDevice.LN ++ [ln] }

/-- The outer loop of `BrowseModelToSCL` over the device names left, entered
with `scl`. A failed `IedConnection_getLogicalDeviceDirectory` is the
`continue`. -/
def browseDevices (connection : IedConnection) (fuel : Nat) :
    List String → SCL → Option SCL
  | [], scl => some scl
  | deviceName :: rest, scl =>
    let lDevice : LDevice := { Inst := deviceName, LN := [] }
    let logicalNodes := connection.getLogicalDeviceDirectory deviceName
    if logicalNodes.clientError ≠ 0 then
      browseDevices connection fuel rest scl
    else
      match browseLogicalNodes connection fuel deviceName logicalNodes.list lDevice with
      | none => none
      | some lDevice =>
        let ied : IED :=
          { Name := deviceName
            AccessPoint := [{ Name := deviceName ++ "_AP", LDevice := [lDevice] }] }
        browseDevices connection fuel rest { scl with IED := scl.IED ++ [ied] }

/-- Go `(*IedClient).BrowseModelToSCL()` on the client's connection.
`some (.error code)` is the return `(nil, err)`, the error built from the
client error `code`; `some (.ok scl)` is `(scl, nil)`; `none` is a walk cut
short by the fuel. -/
def BrowseModelToSCL (connection : IedConnection) (fuel : Nat) : Option (Except Nat SCL) :=
  let deviceList := connection.getLogicalDeviceList
  if deviceList.clientError ≠ 0 then
    some (.error deviceList.clientError)
  else
    match browseDevices connection fuel deviceList.list { IED := [] } with
    | none => none
    | some scl => some (.ok scl)

/-! ## Derived notions used to state the properties -/

/-- The node `digIntoStructure` builds for one element. -/
def naiveNode (client : IedClient) (value : MmsValue) : GoMmsValue :=
  .mk (MmsValue_getType value) (resolveValue client value (MmsValue_getType value))

/-- The node `digIntoStructureOptimized` builds for one element. -/
def inlineNode (client : IedClient) (value : MmsValue) : GoMmsValue :=
  .mk (MmsValue_getType value) (resolveValueInline client value (MmsValue_getType value))

/-- The functional constraint filter of `findDAName`: `MX` or `ST`. -/
def isMXorST (da : DA) : Bool :=
  decide (da.FC = "MX" ∨ da.FC = "ST")

/-- What the loop body of `ExplainDataSetValues` stores for a child `v`: the
sole element's `Value` for a list of one, nothing for any other list, and
`v.Value` itself for everything that is not a list. -/
def storedValue (v : GoMmsValue) : Option GoValue :=
  match v.Value with
  | .slice [rv0] => some rv0.Value
  | .slice _ => none
  | x => some x

/-- The segment the loop body appends for the child at position `i`. -/
def childSegment (doTyp : DOType) (i : Nat) : String :=
  if doTyp.DA.length > i + 1 then findDAName doTyp.DA i else toString i

/-- The assignment, if any, the loop body performs for child `v` under the
reference `ref`. -/
def childStore (ref : String) (v : GoMmsValue) : GoMap :=
  match storedValue v with
  | some x => [(ref, x)]
  | none => []

/-- The content of the `strings.Builder` after the inner loop has passed `n`
children, starting at position `i` with content `builder`. -/
def builderAfter (doTyp : DOType) : Nat → Nat → String → String
  | 0, _, builder => builder
  | n + 1, i, builder => builderAfter doTyp n (i + 1) (builder ++ "." ++ childSegment doTyp i)

/-- Whether the data directory below `ref` is exhausted within `fuel` levels:
the fetch at `ref` fails, or every name it lists is exhausted within one level
less. -/
def dataDirectoryBounded (connection : IedConnection) : Nat → String → Bool
  | 0, _ => false
  | fuel + 1, ref =>
    let directory := connection.getDataDirectory ref
    if directory.clientError ≠ 0 then true
    else directory.list.all fun name =>
      dataDirectoryBounded connection fuel (ref ++ "." ++ name)

/-- Whether `fuel` is enough for the walk of the whole model: the data
directory of every data object the walk reaches is exhausted within `fuel`
levels. -/
def modelBounded (connection : IedConnection) (fuel : Nat) : Bool :=
  connection.getLogicalDeviceList.list.all fun deviceName =>
    let logicalNodes := connection.getLogicalDeviceDirectory deviceName
    if logicalNodes.clientError ≠ 0 then true
    else logicalNodes.list.all fun logicalNodeName =>
      (connection.getLogicalNodeDirectory (deviceName ++ "/" ++ logicalNodeName)).list.all
        fun dataObjectName =>
          dataDirectoryBounded connection fuel
            (deviceName ++ "/" ++ logicalNodeName ++ "." ++ dataObjectName)

/-- The entry of one data object: its name and the attributes browsed below
its own reference. -/
def doiOf (connection : IedConnection) (fuel : Nat) (deviceName logicalNodeName : String)
    (dataObjectName : String) : DOI :=
  { Name := dataObjectName
    DAI := (BrowseDataAttributesSCL connection fuel
      (deviceName ++ "/" ++ logicalNodeName ++ "." ++ dataObjectName)).getD [] }

/-- The entry of one logical node: one data object entry per name its own
directory fetch hands back. -/
def lnOf (connection : IedConnection) (fuel : Nat) (deviceName logicalNodeName : String) :
    LN :=
  { Inst := logicalNodeName
    DOI := (connection.getLogicalNodeDirectory (deviceName ++ "/" ++ logicalNodeName)).list.map
      (doiOf connection fuel deviceName logicalNodeName) }

/-- The entry of one logical device: an IED with one access point and one
logical device, holding one node entry per name of its own directory. -/
def iedOf (connection : IedConnection) (fuel : Nat) (deviceName : String) : IED :=
  { Name := deviceName
    AccessPoint :=
      [{ Name := deviceName ++ "_AP"
         LDevice :=
          [{ Inst := deviceName
             LN := (connection.getLogicalDeviceDirectory deviceName).list.map
              (lnOf connection fuel deviceName) }] }] }

/-- Whether the logical device directory fetch of `deviceName` succeeds. -/
def deviceDirectoryOk (connection : IedConnection) (deviceName : String) : Bool :=
  decide ((connection.getLogicalDeviceDirectory deviceName).clientError = 0)

/-- The model in the SCL shape: one device entry, in device list order, for
every logical device whose own directory fetch succeeds. -/
def sclOf (connection : IedConnection) (fuel : Nat) : SCL :=
  { IED := (connection.getLogicalDeviceList.list.filter (deviceDirectoryOk connection)).map
      (iedOf connection fuel) }

/-- `ref` is `base` or lies below it: `base` is an initial segment of `ref`. -/
def refBelow (base ref : String) : Prop :=
  base.data <+: ref.data

mutual
/-- Whether building `value` under the tag `valueType` meets no BitString and
no UtcTime: the tag is neither, and for a Structure no element does, at any
depth of nested Structures. An Array is never descended into. -/
def timestampFree : MmsValue → MMSType → Bool
  | .mk _ _ _ _ _ _ _ elements, valueType =>
    match valueType with
    | MMS_BIT_STRING => false
    | MMS_UTC_TIME => false
    | MMS_STRUCTURE => timestampFreeAll elements
    | _ => true
/-- Whether every element of the list, under its own tag, is
`timestampFree`. -/
def timestampFreeAll : List MmsValue → Bool
  | [] => true
  | element :: rest =>
    timestampFree element (MmsValue_getType element) && timestampFreeAll rest
end

/-! ## Example inputs -/

/-- A Boolean leaf. -/
def boolLeaf : MmsValue := .mk MMS_BOOLEAN true 0 0 none 0 0 []

/-- A bit string leaf whose decoded integer is 5. -/
def bitStringLeaf : MmsValue := .mk MMS_BIT_STRING false 0 0 none 5 0 []

/-- An Array-tagged value with one Boolean element. -/
def arrayOfOne : MmsValue := .mk MMS_ARRAY false 0 0 none 0 0 [boolLeaf]

/-- A Structure-tagged value with one Boolean element. -/
def structOfBool : MmsValue := .mk MMS_STRUCTURE false 0 0 none 0 0 [boolLeaf]

/-- A Structure-tagged value with one bit string element. -/
def structOfBitString : MmsValue := .mk MMS_STRUCTURE false 0 0 none 0 0 [bitStringLeaf]

/-- A dataset description with the single entry `IED1` / `LD0` / `A` / `B`
(base reference `IED1LD0/A.B`), attribute name `daName`, whose data object
type declares the attributes `das`. -/
def exampleDataSet (das : List DA) (daName : String) : DataSetDetail :=
  { IEDName := "IED1"
    FCDA := [{ LDInst := "LD0", Prefix := "", LNClass := "A", LNInst := "", DOName := "B",
               DAName := daName }]
    GetDOType := fun _ _ _ => { DA := das } }

/-- The Float node 12.5 (IEEE-754 bits `0x4029000000000000`). -/
def float12_5 : GoMmsValue := .mk MMS_FLOAT (.float64 4623226492472524800)

/-- The Integer node 0. -/
def int0 : GoMmsValue := .mk MMS_INTEGER (.int64 0)

/-- The Integer node 7. -/
def int7 : GoMmsValue := .mk MMS_INTEGER (.int64 7)

/-- An example connection. Devices `LD0`, `LD1`, `LD2`; the directory fetch of
`LD1` fails. `LD0` has the nodes `LLN0` and `MMXU1`; the node directory fetch
of `LD0/MMXU1` fails. `LD0/LLN0` has the data objects `Mod` and `Beh`; the data
directory fetch of `LD0/LLN0.Beh` fails, `LD0/LLN0.Mod` lists `stVal` and `q`.
`LD2` has the node `LLN0` with the data object `Mod`, which lists `stVal`.
Every other data directory is empty. -/
def exampleConnection : IedConnection :=
  { getLogicalDeviceList := { list := ["LD0", "LD1", "LD2"], clientError := 0 }
    getLogicalDeviceDirectory := fun deviceName =>
      if deviceName = "LD0" then { list := ["LLN0", "MMXU1"], clientError := 0 }
      else if deviceName = "LD2" then { list := ["LLN0"], clientError := 0 }
      else { list := [], clientError := 5 }
    getLogicalNodeDirectory := fun lnRef =>
      if lnRef = "LD0/LLN0" then { list := ["Mod", "Beh"], clientError := 0 }
      else if lnRef = "LD2/LLN0" then { list := ["Mod"], clientError := 0 }
      else { list := [], clientError := 5 }
    getDataDirectory := fun ref =>
      if ref = "LD0/LLN0.Mod" then { list := ["stVal", "q"], clientError := 0 }
      else if ref = "LD2/LLN0.Mod" then { list := ["stVal"], clientError := 0 }
      else if ref = "LD0/LLN0.Beh" then { list := [], clientError := 5 }
      else { list := [], clientError := 0 } }

/-- The SCL the walk of `exampleConnection` returns. -/
def exampleSCL : SCL :=
  { IED :=
      [{ Name := "LD0"
         AccessPoint :=
          [{ Name := "LD0_AP"
             LDevice :=
              [{ Inst := "LD0"
                 LN :=
                  [{ Inst := "LLN0"
                     DOI :=
                      [{ Name := "Mod"
                         DAI := [.mk "stVal" ⟨"SomeValue"⟩ [], .mk "q" ⟨"SomeValue"⟩ []] },
                       { Name := "Beh", DAI := [] }] },
                   { Inst := "MMXU1", DOI := [] }] }] }] },
       { Name := "LD2"
         AccessPoint :=
          [{ Name := "LD2_AP"
             LDevice :=
              [{ Inst := "LD2"
                 LN :=
                  [{ Inst := "LLN0"
                     DOI := [{ Name := "Mod", DAI := [.mk "stVal" ⟨"SomeValue"⟩ []] }] }] }] }] }] }

/-- The example connection with the directory fetch of `LD2` failing too. -/
def exampleConnectionLD2Down : IedConnection :=
  { exampleConnection with
    getLogicalDeviceDirectory := fun deviceName =>
      if deviceName = "LD0" then { list := ["LLN0", "MMXU1"], clientError := 0 }
      else { list := [], clientError := 5 } }

/-! ## The value tree builder: what the loops compute -/

theorem getElement_eq_none {mms : MmsValue} {index : Nat}
    (h : MmsValue_getElement mms index = none) : mms.elements.length ≤ index := by
  simp only [MmsValue_getElement] at h
  exact List.getElem?_eq_none_iff.mp h

theorem drop_of_getElement {mms value : MmsValue} {index : Nat}
    (h : MmsValue_getElement mms index = some value) :
    mms.elements.drop index = value :: mms.elements.drop (index + 1) := by
  simp only [MmsValue_getElement] at h
  obtain ⟨hlt, hv⟩ := List.getElem?_eq_some.mp h
  rw [← hv]
  exact List.drop_eq_getElem_cons hlt

/-- The loop of `digIntoStructure` appends one node per remaining element, in
index order, and stops at the first NULL. -/
theorem digIntoStructureLoop_eq (client : IedClient) (mms : MmsValue) :
    ∀ (k index : Nat) (goValues : List GoMmsValue), mms.elements.length - index = k →
      digIntoStructureLoop client index goValues mms
        = goValues ++ (mms.elements.drop index).map (naiveNode client) := by
  intro k
  induction k with
  | zero =>
    intro index goValues hk
    rw [digIntoStructureLoop]
    split
    · next h =>
      rw [List.drop_eq_nil_of_le (getElement_eq_none h)]
      simp
    · next value h =>
      have := lt_length_of_getElement h
      omega
  | succ k ih =>
    intro index goValues hk
    rw [digIntoStructureLoop]
    split
    · next h =>
      have := getElement_eq_none h
      omega
    · next value h =>
      have hlt := lt_length_of_getElement h
      simp only
      rw [ih (index + 1) _ (by omega), drop_of_getElement h]
      simp [naiveNode]

/-- On a Structure tag `digIntoStructure` builds one node per element. -/
theorem digIntoStructure_structure (client : IedClient) (mms : MmsValue) :
    digIntoStructure client mms MMS_STRUCTURE = mms.elements.map (naiveNode client) := by
  rw [digIntoStructure]
  simp [digIntoStructureLoop_eq client mms _ 0 [] rfl]

/-- On every other tag `digIntoStructure` returns the nil slice. -/
theorem digIntoStructure_of_ne (client : IedClient) (mms : MmsValue) (vType : MMSType)
    (h : vType ≠ MMS_STRUCTURE) : digIntoStructure client mms vType = [] := by
  rw [digIntoStructure]
  simp [h]

theorem setValueAt_append_length (goValues : List GoMmsValue) (t : MMSType) (v : GoValue) :
    setValueAt (goValues ++ [.mk t .nil]) goValues.length v = goValues ++ [.mk t v] := by
  induction goValues with
  | nil => rfl
  | cons g rest ih => simp [setValueAt, ih]

/-- The loop of `digIntoStructureOptimized` appends one node per remaining
element, in index order, and stops at the first NULL; `len(goValues) = index`
is the invariant that keeps `&goValues[index]` on the node just appended. -/
theorem digIntoStructureOptimizedLoop_eq (client : IedClient) (mms : MmsValue) :
    ∀ (k index : Nat) (goValues : List GoMmsValue), goValues.length = index →
      mms.elements.length - index = k →
      digIntoStructureOptimizedLoop client index goValues mms
        = goValues ++ (mms.elements.drop index).map (inlineNode client) := by
  intro k
  induction k with
  | zero =>
    intro index goValues _ hk
    rw [digIntoStructureOptimizedLoop]
    split
    · next h =>
      rw [List.drop_eq_nil_of_le (getElement_eq_none h)]
      simp
    · next value h =>
      have := lt_length_of_getElement h
      omega
  | succ k ih =>
    intro index goValues hlen hk
    rw [digIntoStructureOptimizedLoop]
    split
    · next h =>
      have := getElement_eq_none h
      omega
    · next value h =>
      have hlt := lt_length_of_getElement h
      simp only
      subst hlen
      rw [setValueAt_append_length, ih (goValues.length + 1) _ (by simp) (by omega),
        drop_of_getElement h]
      simp [inlineNode]

/-- On a Structure tag `digIntoStructureOptimized` builds one node per
element. -/
theorem digIntoStructureOptimized_structure (client : IedClient) (mms : MmsValue) :
    digIntoStructureOptimized client mms MMS_STRUCTURE
      = mms.elements.map (inlineNode client) := by
  rw [digIntoStructureOptimized]
  simp [digIntoStructureOptimizedLoop_eq client mms _ 0 [] rfl rfl]

/-- On every other tag `digIntoStructureOptimized` returns the nil slice. -/
theorem digIntoStructureOptimized_of_ne (client : IedClient) (mms : MmsValue)
    (vType : MMSType) (h : vType ≠ MMS_STRUCTURE) :
    digIntoStructureOptimized client mms vType = [] := by
  rw [digIntoStructureOptimized]
  simp [h]

/-- The last `WithoutTimestamps` option passed to `NewIedClient` decides the
flag of the client. -/
theorem withoutTimestamps_NewIedClient (options : List (Option (IedClient → IedClient)))
    (flag : Bool) :
    (NewIedClient (options ++ [some (WithoutTimestamps flag)])).withoutTimestamps = flag := by
  simp [NewIedClient, List.foldl_append, WithoutTimestamps]

theorem getBitStringAsInteger_mod (value : MmsValue) :
    MmsValue_getBitStringAsInteger value % 2 ^ 32 = MmsValue_getBitStringAsInteger value := by
  cases value
  simp [MmsValue_getBitStringAsInteger]

theorem toUnixTimestamp_mod (value : MmsValue) :
    MmsValue_toUnixTimestamp value % 2 ^ 32 = MmsValue_toUnixTimestamp value := by
  cases value
  simp [MmsValue_toUnixTimestamp]

/-! ## Claims on the value tree builder -/

/-- Both builders turn a Structure-tagged value into the list of the trees of
its elements, one per adapter index before the first NULL, in index order. -/
theorem resolveValue_structure (client : IedClient) (value : MmsValue) :
    resolveValueInline client value MMS_STRUCTURE
        = .slice (value.elements.map (inlineNode client))
      ∧ resolveValue client value MMS_STRUCTURE
        = .slice (value.elements.map (naiveNode client)) := by
  constructor
  · rw [resolveValueInline, digIntoStructureOptimized_structure]
  · rw [resolveValue, digIntoStructure_structure]

/-- Both builders turn every Array-tagged value into the nil slice, whatever
its elements are. -/
theorem resolveValue_array (client : IedClient) (value : MmsValue) :
    resolveValueInline client value MMS_ARRAY = .slice []
      ∧ resolveValue client value MMS_ARRAY = .slice [] := by
  constructor
  · rw [resolveValueInline, digIntoStructureOptimized_of_ne _ _ _ (by decide)]
  · rw [resolveValue, digIntoStructure_of_ne _ _ _ (by decide)]

/-- C9, at the failing input: the adapter value `arrayOfOne` carries the tag
Array and one element (index 0 answers the Boolean leaf, index 1 answers
NULL), yet the tree both builders produce for it has no children. -/
theorem C9_array_children_dropped (client : IedClient) :
    MmsValue_getType arrayOfOne = MMS_ARRAY
      ∧ MmsValue_getElement arrayOfOne 0 = some boolLeaf
      ∧ MmsValue_getElement arrayOfOne 1 = none
      ∧ resolveValueInline client arrayOfOne (MmsValue_getType arrayOfOne) = .slice []
      ∧ resolveValue client arrayOfOne (MmsValue_getType arrayOfOne) = .slice [] := by
  refine ⟨rfl, rfl, rfl, ?_, ?_⟩
  · have h : MmsValue_getType arrayOfOne = MMS_ARRAY := rfl
    rw [h, resolveValueInline, digIntoStructureOptimized_of_ne _ _ _ (by decide)]
  · have h : MmsValue_getType arrayOfOne = MMS_ARRAY := rfl
    rw [h, resolveValue, digIntoStructure_of_ne _ _ _ (by decide)]

/-- C10, counterexample: Structure is neither BitString nor UtcTime, yet the
tree built for the Structure `structOfBitString` differs between a client
configured with `WithoutTimestamps(true)` and one configured with
`WithoutTimestamps(false)`. -/
theorem C10_flag_changes_structure :
    MMS_STRUCTURE ≠ MMS_BIT_STRING ∧ MMS_STRUCTURE ≠ MMS_UTC_TIME
      ∧ resolveValueInline (NewIedClient [some (WithoutTimestamps true)])
            structOfBitString MMS_STRUCTURE
          ≠ resolveValueInline (NewIedClient [some (WithoutTimestamps false)])
            structOfBitString MMS_STRUCTURE
      ∧ resolveValue (NewIedClient [some (WithoutTimestamps true)])
            structOfBitString MMS_STRUCTURE
          ≠ resolveValue (NewIedClient [some (WithoutTimestamps false)])
            structOfBitString MMS_STRUCTURE := by
  refine ⟨by decide, by decide, ?_, ?_⟩
  · rw [(resolveValue_structure _ _).1, (resolveValue_structure _ _).1]
    simp [structOfBitString, MmsValue.elements, inlineNode, bitStringLeaf, MmsValue_getType,
      resolveValueInline, NewIedClient, WithoutTimestamps]
  · rw [(resolveValue_structure _ _).2, (resolveValue_structure _ _).2]
    simp [structOfBitString, MmsValue.elements, naiveNode, bitStringLeaf, MmsValue_getType,
      resolveValue, NewIedClient, WithoutTimestamps]

theorem timestampFree_structure (value : MmsValue) :
    timestampFree value MMS_STRUCTURE = timestampFreeAll value.elements := by
  cases value
  rfl

theorem timestampFreeAll_iff (elements : List MmsValue) :
    timestampFreeAll elements = true
      ↔ ∀ e ∈ elements, timestampFree e (MmsValue_getType e) = true := by
  induction elements with
  | nil => simp [timestampFreeAll]
  | cons e rest ih => simp [timestampFreeAll, ih]

/-- The two settings of the flag give the same result exactly on the values
that are `timestampFree`, for both builders. -/
theorem resolve_flag_iff (cT cF : IedClient) (hT : cT.withoutTimestamps = true)
    (hF : cF.withoutTimestamps = false) :
    ∀ (n : Nat) (value : MmsValue), sizeOf value ≤ n → ∀ valueType : MMSType,
      (resolveValueInline cT value valueType = resolveValueInline cF value valueType
          ↔ timestampFree value valueType = true)
        ∧ (resolveValue cT value valueType = resolveValue cF value valueType
          ↔ timestampFree value valueType = true) := by
  intro n
  induction n with
  | zero =>
    intro value h
    cases value
    simp only [MmsValue.mk.sizeOf_spec] at h
    omega
  | succ n ih =>
    intro value h valueType
    have hsize : ∀ e ∈ value.elements, sizeOf e ≤ n := by
      intro e he
      cases value with
      | mk t b d i str bs u es =>
        have := List.sizeOf_lt_of_mem (show e ∈ es from he)
        simp only [MmsValue.mk.sizeOf_spec] at h
        omega
    cases valueType with
    | MMS_STRUCTURE =>
      rw [(resolveValue_structure cT value).1, (resolveValue_structure cF value).1,
        (resolveValue_structure cT value).2, (resolveValue_structure cF value).2,
        timestampFree_structure, timestampFreeAll_iff]
      simp only [GoValue.slice.injEq, List.map_inj_left, inlineNode, naiveNode,
        GoMmsValue.mk.injEq, true_and]
      constructor
      · constructor
        · intro hall e he
          exact (ih e (hsize e he) _).1.mp (hall e he)
        · intro hall e he
          exact (ih e (hsize e he) _).1.mpr (hall e he)
      · constructor
        · intro hall e he
          exact (ih e (hsize e he) _).2.mp (hall e he)
        · intro hall e he
          exact (ih e (hsize e he) _).2.mpr (hall e he)
    | MMS_ARRAY =>
      rw [(resolveValue_array cT value).1, (resolveValue_array cF value).1,
        (resolveValue_array cT value).2, (resolveValue_array cF value).2]
      cases value
      simp [timestampFree]
    | MMS_BIT_STRING =>
      rw [resolveValueInline, resolveValueInline, resolveValue, resolveValue]
      cases value
      simp [hT, hF, timestampFree]
    | MMS_UTC_TIME =>
      rw [resolveValueInline, resolveValueInline, resolveValue, resolveValue]
      cases value
      simp [hT, hF, timestampFree]
    | _ =>
      rw [resolveValueInline, resolveValueInline, resolveValue, resolveValue]
      cases value
      simp [timestampFree]

/-- C10, amended: with `WithoutTimestamps(true)` both builders yield the
sentinel `0` for the tags BitString and UtcTime, whatever the adapter value
holds; with `WithoutTimestamps(false)` they yield the adapter's decoded 32-bit
unsigned value. Under either setting a Structure is built element by element
with the same client, each element under its own tag. The two settings give
different results exactly when the tag is BitString or UtcTime, or the tag is
Structure and a BitString or UtcTime value is among its elements at some depth
of nested Structures (`timestampFree` is false); for every other tag, and for
every other Structure, the result is the same. -/
theorem C10_timestamp_switch (options : List (Option (IedClient → IedClient)))
    (value : MmsValue) (valueType : MMSType) :
    (resolveValueInline (NewIedClient (options ++ [some (WithoutTimestamps true)]))
              value MMS_BIT_STRING = .int 0
          ∧ resolveValue (NewIedClient (options ++ [some (WithoutTimestamps true)]))
              value MMS_BIT_STRING = .int 0
          ∧ resolveValueInline (NewIedClient (options ++ [some (WithoutTimestamps true)]))
              value MMS_UTC_TIME = .int 0
          ∧ resolveValue (NewIedClient (options ++ [some (WithoutTimestamps true)]))
              value MMS_UTC_TIME = .int 0)
      ∧ (resolveValueInline (NewIedClient (options ++ [some (WithoutTimestamps false)]))
              value MMS_BIT_STRING = .uint32 (MmsValue_getBitStringAsInteger value)
          ∧ resolveValue (NewIedClient (options ++ [some (WithoutTimestamps false)]))
              value MMS_BIT_STRING = .uint32 (MmsValue_getBitStringAsInteger value)
          ∧ resolveValueInline (NewIedClient (options ++ [some (WithoutTimestamps false)]))
              value MMS_UTC_TIME = .uint32 (MmsValue_toUnixTimestamp value)
          ∧ resolveValue (NewIedClient (options ++ [some (WithoutTimestamps false)]))
              value MMS_UTC_TIME = .uint32 (MmsValue_toUnixTimestamp value))
      ∧ (∀ flag : Bool,
          resolveValueInline (NewIedClient (options ++ [some (WithoutTimestamps flag)]))
              value MMS_STRUCTURE
            = .slice (value.elements.map fun element =>
                .mk (MmsValue_getType element)
                  (resolveValueInline
                    (NewIedClient (options ++ [some (WithoutTimestamps flag)]))
                    element (MmsValue_getType element)))
          ∧ resolveValue (NewIedClient (options ++ [some (WithoutTimestamps flag)]))
              value MMS_STRUCTURE
            = .slice (value.elements.map fun element =>
                .mk (MmsValue_getType element)
                  (resolveValue
                    (NewIedClient (options ++ [some (WithoutTimestamps flag)]))
                    element (MmsValue_getType element))))
      ∧ (resolveValueInline (NewIedClient (options ++ [some (WithoutTimestamps true)]))
              value valueType
            = resolveValueInline (NewIedClient (options ++ [some (WithoutTimestamps false)]))
              value valueType
          ↔ timestampFree value valueType = true)
      ∧ (resolveValue (NewIedClient (options ++ [some (WithoutTimestamps true)]))
              value valueType
            = resolveValue (NewIedClient (options ++ [some (WithoutTimestamps false)]))
              value valueType
          ↔ timestampFree value valueType = true)
      ∧ (∀ t, t ≠ MMS_BIT_STRING → t ≠ MMS_UTC_TIME → t ≠ MMS_STRUCTURE →
        resolveValueInline (NewIedClient (options ++ [some (WithoutTimestamps true)])) value t
            = resolveValueInline
                (NewIedClient (options ++ [some (WithoutTimestamps false)])) value t
          ∧ resolveValue (NewIedClient (options ++ [some (WithoutTimestamps true)])) value t
            = resolveValue
                (NewIedClient (options ++ [some (WithoutTimestamps false)])) value t) := by
  have hT := withoutTimestamps_NewIedClient options true
  have hF := withoutTimestamps_NewIedClient options false
  have hiff := resolve_flag_iff _ _ hT hF _ value (Nat.le_refl _) valueType
  have hother : ∀ t, t ≠ MMS_BIT_STRING → t ≠ MMS_UTC_TIME → t ≠ MMS_STRUCTURE →
      timestampFree value t = true := by
    intro t h1 h2 h3
    cases value
    cases t <;> first
      | exact absurd rfl h1
      | exact absurd rfl h2
      | exact absurd rfl h3
      | rfl
  refine ⟨⟨?_, ?_, ?_, ?_⟩, ⟨?_, ?_, ?_, ?_⟩, ?_, hiff.1, hiff.2,
    fun t h1 h2 h3 =>
      ⟨(resolve_flag_iff _ _ hT hF _ value (Nat.le_refl _) t).1.mpr (hother t h1 h2 h3),
        (resolve_flag_iff _ _ hT hF _ value (Nat.le_refl _) t).2.mpr (hother t h1 h2 h3)⟩⟩
  · rw [resolveValueInline]; simp [hT]
  · rw [resolveValue]; simp [hT]
  · rw [resolveValueInline]; simp [hT]
  · rw [resolveValue]; simp [hT]
  · rw [resolveValueInline, getBitStringAsInteger_mod]; simp [hF]
  · rw [resolveValue, getBitStringAsInteger_mod]; simp [hF]
  · rw [resolveValueInline, toUnixTimestamp_mod]; simp [hF]
  · rw [resolveValue, toUnixTimestamp_mod]; simp [hF]
  · intro flag
    exact ⟨(resolveValue_structure _ value).1, (resolveValue_structure _ value).2⟩

/-- C10, witness: the Structure `structOfBool`, which holds no BitString and
no UtcTime, is built alike under both settings; the Structure
`structOfBitString` is not; a Boolean is built alike. -/
theorem C10_timestamp_switch_witness :
    resolveValueInline (NewIedClient ([] ++ [some (WithoutTimestamps true)])) structOfBool
          MMS_STRUCTURE
        = resolveValueInline (NewIedClient ([] ++ [some (WithoutTimestamps false)]))
          structOfBool MMS_STRUCTURE
      ∧ ¬ (resolveValue (NewIedClient ([] ++ [some (WithoutTimestamps true)]))
          structOfBitString MMS_STRUCTURE
        = resolveValue (NewIedClient ([] ++ [some (WithoutTimestamps false)]))
          structOfBitString MMS_STRUCTURE)
      ∧ resolveValueInline (NewIedClient ([] ++ [some (WithoutTimestamps true)])) boolLeaf
          MMS_BOOLEAN
        = resolveValueInline (NewIedClient ([] ++ [some (WithoutTimestamps false)])) boolLeaf
          MMS_BOOLEAN :=
  ⟨(C10_timestamp_switch [] structOfBool MMS_STRUCTURE).2.2.2.1.mpr rfl,
    fun h => Bool.false_ne_true
      ((C10_timestamp_switch [] structOfBitString MMS_STRUCTURE).2.2.2.2.1.mp h),
    ((C10_timestamp_switch [] boolLeaf MMS_BOOLEAN).2.2.2.2.2 MMS_BOOLEAN
      (by decide) (by decide) (by decide)).1⟩

/-! ## Claims on the dataset explainer -/

theorem explainEntities_isOk (dSetScl : DataSetDetail) (values : List GoMmsValue) :
    ∀ (entities : List FCDA) (idx : Nat) (ret : GoMap),
      idx + entities.length ≤ values.length →
      ∃ ret', explainEntities dSetScl values entities idx ret = .ok ret' := by
  intro entities
  induction entities with
  | nil => intro idx ret _; exact ⟨ret, rfl⟩
  | cons entity rest ih =>
    intro idx ret h
    simp only [List.length_cons] at h
    obtain ⟨val, hval⟩ : ∃ val, values[idx]? = some val :=
      ⟨values[idx], List.getElem?_eq_getElem (by omega)⟩
    simp only [explainEntities, hval]
    split
    · exact ih _ _ (by omega)
    · split <;> exact ih _ _ (by omega)

/-- C1: `ExplainDataSetValues` returns the error (and no map) whenever the
number of values differs from the number of FCDA entries, and returns a map
with a nil error whenever the two numbers are equal. -/
theorem C1_length_precondition (values : List GoMmsValue) (dSetScl : DataSetDetail) :
    (dSetScl.FCDA.length ≠ values.length →
        ExplainDataSetValues values dSetScl = .error "error dataset scl")
      ∧ (dSetScl.FCDA.length = values.length →
        ∃ ret, ExplainDataSetValues values dSetScl = .ok ret) := by
  constructor
  · intro h
    simp [ExplainDataSetValues, h]
  · intro h
    simp only [ExplainDataSetValues, h, ne_eq, not_true_eq_false, if_false]
    exact explainEntities_isOk dSetScl values dSetScl.FCDA 0 [] (by omega)

/-- C1, witness: one entry against no value is the error, one entry against
one value is a map. -/
theorem C1_length_precondition_witness :
    ExplainDataSetValues [] (exampleDataSet [] "mag") = .error "error dataset scl"
      ∧ ∃ ret, ExplainDataSetValues [float12_5] (exampleDataSet [] "mag") = .ok ret :=
  ⟨(C1_length_precondition [] (exampleDataSet [] "mag")).1 (by decide),
    (C1_length_precondition [float12_5] (exampleDataSet [] "mag")).2 (by decide)⟩

/-- C2: for a dataset description with a single entry that names its
attribute, and a single value, the result is the map with exactly one
assignment: the key is the reference of the entry followed by `.` and the
attribute name, the value is the `Value` of the input unchanged. -/
theorem C2_explicit_attribute (dSetScl : DataSetDetail) (entity : FCDA) (v : GoMmsValue)
    (hF : dSetScl.FCDA = [entity]) (hD : entity.DAName ≠ "") :
    ExplainDataSetValues [v] dSetScl
      = .ok [(dSetScl.IEDName ++ entity.LDInst ++ "/" ++ entity.Prefix ++ entity.LNClass
                ++ entity.LNInst ++ "." ++ entity.DOName ++ "." ++ entity.DAName,
              v.Value)] := by
  simp [ExplainDataSetValues, hF, explainEntities, hD, GoMap.set]

/-- C2, witness: base `IED1LD0/A.B`, attribute `mag`, value Float 12.5. -/
theorem C2_explicit_attribute_witness :
    ExplainDataSetValues [float12_5] (exampleDataSet [] "mag")
      = .ok [("IED1LD0/A.B.mag", .float64 4623226492472524800)] :=
  C2_explicit_attribute (exampleDataSet [] "mag")
    { LDInst := "LD0", Prefix := "", LNClass := "A", LNInst := "", DOName := "B",
      DAName := "mag" }
    float12_5 rfl (by decide)

theorem findDANameLoop_eq (das : List DA) :
    ∀ (realIndex index : Int),
      findDANameLoop das realIndex index
        = if index < realIndex then ""
          else match (das.filter isMXorST)[(index - realIndex).toNat]? with
            | some da => da.Name
            | none => "" := by
  induction das with
  | nil =>
    intro realIndex index
    simp [findDANameLoop]
  | cons da rest ih =>
    intro realIndex index
    by_cases hp : da.FC ≠ "MX" ∧ da.FC ≠ "ST"
    · have hf : isMXorST da = false := by
        simp only [isMXorST, decide_eq_false_iff_not, not_or]
        exact hp
      rw [findDANameLoop, if_pos hp, ih, List.filter_cons_of_neg (by simp [hf])]
    · have hf : isMXorST da = true := by
        simp only [isMXorST, decide_eq_true_eq]
        by_contra hc
        exact hp (not_or.mp hc)
      rw [findDANameLoop, if_neg hp, List.filter_cons_of_pos hf]
      by_cases he : realIndex = index
      · subst he
        simp
      · rw [if_neg he, ih]
        by_cases hlt : index < realIndex
        · rw [if_pos hlt, if_pos (by omega)]
        · rw [if_neg hlt, if_neg (by omega)]
          have hk : (index - realIndex).toNat = (index - (realIndex + 1)).toNat + 1 := by
            omega
          rw [hk, List.getElem?_cons_succ]

/-- C3: `findDAName(das, index)` is the `Name` of the element at position
`index` (counted from 0) of the sublist of `das` with functional constraint
`MX` or `ST`, in the original order, and the empty string when `index` is
negative or not below the length of that sublist. -/
theorem C3_findDAName (das : List DA) (index : Int) :
    findDAName das index
      = if index < 0 then ""
        else match (das.filter isMXorST)[index.toNat]? with
          | some da => da.Name
          | none => "" := by
  rw [findDAName, findDANameLoop_eq]
  simp

theorem explainValueList_cons (doTyp : DOType) (v : GoMmsValue) (rest : List GoMmsValue)
    (i : Nat) (builder : String) (ret : GoMap) :
    explainValueList doTyp (v :: rest) i builder ret
      = explainValueList doTyp rest (i + 1) (builder ++ "." ++ childSegment doTyp i)
          (ret ++ childStore (builder ++ "." ++ childSegment doTyp i) v) := by
  have hb : (if doTyp.DA.length > i + 1 then builder ++ "." ++ findDAName doTyp.DA i
      else builder ++ "." ++ toString i) = builder ++ "." ++ childSegment doTyp i := by
    unfold childSegment
    split <;> rfl
  rw [explainValueList]
  simp only [hb]
  cases v with
  | mk t val =>
    cases val with
    | slice rv =>
      match rv with
      | [] => simp [GoMmsValue.Value, childStore, storedValue]
      | [rv0] => simp [GoMmsValue.Value, childStore, storedValue, GoMap.set]
      | _ :: _ :: _ => simp [GoMmsValue.Value, childStore, storedValue]
    | _ => simp [GoMmsValue.Value, childStore, storedValue, GoMap.set]

/-- The assignments of the inner loop are appended to the map it starts from. -/
theorem explainValueList_ret (doTyp : DOType) :
    ∀ (vs : List GoMmsValue) (i : Nat) (builder : String) (ret : GoMap),
      explainValueList doTyp vs i builder ret
        = ret ++ explainValueList doTyp vs i builder [] := by
  intro vs
  induction vs with
  | nil => intro i builder ret; simp [explainValueList]
  | cons v rest ih =>
    intro i builder ret
    rw [explainValueList_cons, explainValueList_cons, ih, ih _ _ ([] ++ _)]
    simp

/-- `findDAName` at a natural index, in terms of the filtered list. -/
theorem findDAName_zero (das : List DA) :
    findDAName das 0
      = match (das.filter isMXorST)[0]? with
        | some da => da.Name
        | none => "" := by
  rw [findDAName, findDANameLoop_eq]
  simp

/-- C4, at the failing input: declared attributes `mag` (MX) and `q` (ST),
runtime Structure with the children 12.5 and 0. The map the code returns keys
the second child by `IED1LD0/A.B.mag.1`; no key `IED1LD0/A.B.q` exists. -/
theorem C4_second_child_key :
    ExplainDataSetValues [.mk MMS_STRUCTURE (.slice [float12_5, int0])]
        (exampleDataSet [⟨"mag", "MX"⟩, ⟨"q", "ST"⟩] "")
      = .ok [("IED1LD0/A.B.mag", .float64 4623226492472524800),
             ("IED1LD0/A.B.mag.1", .int64 0)]
      ∧ GoMap.get [("IED1LD0/A.B.mag", .float64 4623226492472524800),
             ("IED1LD0/A.B.mag.1", .int64 0)] "IED1LD0/A.B.q" = none :=
  ⟨rfl, rfl⟩

/-- C5, at the failing input: two declared attributes (both MX/ST) and a
runtime Structure with three children. The map the code returns keys the
third child by `IED1LD0/A.B.mag.1.2`; no key `IED1LD0/A.B.2` exists. -/
theorem C5_third_child_key :
    ExplainDataSetValues [.mk MMS_STRUCTURE (.slice [float12_5, int0, int7])]
        (exampleDataSet [⟨"mag", "MX"⟩, ⟨"q", "ST"⟩] "")
      = .ok [("IED1LD0/A.B.mag", .float64 4623226492472524800),
             ("IED1LD0/A.B.mag.1", .int64 0),
             ("IED1LD0/A.B.mag.1.2", .int64 7)]
      ∧ GoMap.get [("IED1LD0/A.B.mag", .float64 4623226492472524800),
             ("IED1LD0/A.B.mag.1", .int64 0),
             ("IED1LD0/A.B.mag.1.2", .int64 7)] "IED1LD0/A.B.2" = none :=
  ⟨rfl, rfl⟩

/-- C6, counterexample: the data object type declares two attributes, none of
them MX or ST; the first child is stored under `IED1LD0/A.B.` (blank segment),
not under `IED1LD0/A.B.0`. -/
theorem C6_blank_segment :
    ([⟨"x", "CF"⟩, ⟨"y", "CF"⟩] : List DA).filter isMXorST = []
      ∧ ExplainDataSetValues [.mk MMS_STRUCTURE (.slice [float12_5])]
          (exampleDataSet [⟨"x", "CF"⟩, ⟨"y", "CF"⟩] "")
        = .ok [("IED1LD0/A.B.", .float64 4623226492472524800)]
      ∧ "IED1LD0/A.B." ≠ "IED1LD0/A.B.0" :=
  ⟨rfl, rfl, by decide⟩

theorem explainDataSetValues_branch (dSetScl : DataSetDetail) (entity : FCDA) (t : MMSType)
    (valueList : List GoMmsValue) (hF : dSetScl.FCDA = [entity]) (hD : entity.DAName = "") :
    ExplainDataSetValues [.mk t (.slice valueList)] dSetScl
      = .ok (explainValueList
          (dSetScl.GetDOType entity.Prefix entity.LNClass entity.DOName) valueList 0
          (dSetScl.IEDName ++ entity.LDInst ++ "/" ++ entity.Prefix ++ entity.LNClass
            ++ entity.LNInst ++ "." ++ entity.DOName) []) := by
  simp [ExplainDataSetValues, hF, explainEntities, hD, GoMmsValue.Value]

/-- C6, amended: for a single branch entry with base reference `B` and a
runtime Structure whose first child is stored with value `x`, the first
assignment of the result is that child's. Its key is `B ++ "." ++ name`, with
`name` the `Name` of the first declared MX/ST attribute or the empty string
when there is none, whenever the data object type declares at least two
attributes; it is `B ++ ".0"` when the type declares no attribute. -/
theorem C6_first_child_key (dSetScl : DataSetDetail) (entity : FCDA) (t : MMSType)
    (c : GoMmsValue) (rest : List GoMmsValue) (x : GoValue)
    (hF : dSetScl.FCDA = [entity]) (hD : entity.DAName = "")
    (hx : storedValue c = some x) :
    (2 ≤ (dSetScl.GetDOType entity.Prefix entity.LNClass entity.DOName).DA.length →
        ∃ post, ExplainDataSetValues [.mk t (.slice (c :: rest))] dSetScl
          = .ok ((dSetScl.IEDName ++ entity.LDInst ++ "/" ++ entity.Prefix ++ entity.LNClass
                    ++ entity.LNInst ++ "." ++ entity.DOName ++ "."
                    ++ (match ((dSetScl.GetDOType entity.Prefix entity.LNClass
                          entity.DOName).DA.filter isMXorST).head? with
                        | some da => da.Name
                        | none => ""), x) :: post))
      ∧ ((dSetScl.GetDOType entity.Prefix entity.LNClass entity.DOName).DA = [] →
        ∃ post, ExplainDataSetValues [.mk t (.slice (c :: rest))] dSetScl
          = .ok ((dSetScl.IEDName ++ entity.LDInst ++ "/" ++ entity.Prefix ++ entity.LNClass
                    ++ entity.LNInst ++ "." ++ entity.DOName ++ ".0", x) :: post)) := by
  constructor
  · intro h2
    rw [explainDataSetValues_branch dSetScl entity t _ hF hD, explainValueList_cons,
      explainValueList_ret]
    have hseg : childSegment (dSetScl.GetDOType entity.Prefix entity.LNClass entity.DOName) 0
        = (match ((dSetScl.GetDOType entity.Prefix entity.LNClass
              entity.DOName).DA.filter isMXorST).head? with
            | some da => da.Name
            | none => "") := by
      have hlen : (dSetScl.GetDOType entity.Prefix entity.LNClass entity.DOName).DA.length
          > 0 + 1 := by omega
      rw [childSegment, if_pos hlen]
      have := findDAName_zero (dSetScl.GetDOType entity.Prefix entity.LNClass entity.DOName).DA
      simpa [List.head?_eq_getElem?] using this
    simp only [childStore, hx, hseg, List.nil_append, List.singleton_append, zero_add]
    exact ⟨_, rfl⟩
  · intro h0
    rw [explainDataSetValues_branch dSetScl entity t _ hF hD, explainValueList_cons,
      explainValueList_ret]
    have hseg : childSegment (dSetScl.GetDOType entity.Prefix entity.LNClass entity.DOName) 0
        = "0" := by
      rw [childSegment, h0]
      rfl
    have hstr : ∀ b : String, b ++ "." ++ "0" = b ++ ".0" := by
      intro b
      rw [String.append_assoc]
      rfl
    simp only [childStore, hx, hseg, hstr, List.nil_append, List.singleton_append, zero_add]
    exact ⟨_, rfl⟩

/-- C6, witness: two declared attributes `mag` (MX) and `q` (ST) give the key
`IED1LD0/A.B.mag` for the first child; no declared attribute gives
`IED1LD0/A.B.0`. -/
theorem C6_first_child_key_witness :
    (∃ post, ExplainDataSetValues [.mk MMS_STRUCTURE (.slice [float12_5, int0])]
        (exampleDataSet [⟨"mag", "MX"⟩, ⟨"q", "ST"⟩] "")
        = .ok (("IED1LD0/A.B.mag", .float64 4623226492472524800) :: post))
      ∧ ∃ post, ExplainDataSetValues [.mk MMS_STRUCTURE (.slice [float12_5, int0])]
        (exampleDataSet [] "")
        = .ok (("IED1LD0/A.B.0", .float64 4623226492472524800) :: post) :=
  ⟨(C6_first_child_key (exampleDataSet [⟨"mag", "MX"⟩, ⟨"q", "ST"⟩] "")
      { LDInst := "LD0", Prefix := "", LNClass := "A", LNInst := "", DOName := "B",
        DAName := "" }
      MMS_STRUCTURE float12_5 [int0] (.float64 4623226492472524800) rfl rfl rfl).1
      (by decide),
    (C6_first_child_key (exampleDataSet [] "")
      { LDInst := "LD0", Prefix := "", LNClass := "A", LNInst := "", DOName := "B",
        DAName := "" }
      MMS_STRUCTURE float12_5 [int0] (.float64 4623226492472524800) rfl rfl rfl).2 rfl⟩

/-- C7: for a single branch entry whose runtime value is a list with exactly
one child, itself a list with exactly one element `x`, the result is the map
with exactly one assignment; its key is the reference of the entry followed
by the one segment of the child, its value is `x.Value`. -/
theorem C7_single_wrapper (dSetScl : DataSetDetail) (entity : FCDA) (t ct : MMSType)
    (x : GoMmsValue) (hF : dSetScl.FCDA = [entity]) (hD : entity.DAName = "") :
    ExplainDataSetValues [.mk t (.slice [.mk ct (.slice [x])])] dSetScl
      = .ok [(dSetScl.IEDName ++ entity.LDInst ++ "/" ++ entity.Prefix ++ entity.LNClass
                ++ entity.LNInst ++ "." ++ entity.DOName ++ "."
                ++ childSegment
                    (dSetScl.GetDOType entity.Prefix entity.LNClass entity.DOName) 0,
              x.Value)] := by
  rw [explainDataSetValues_branch dSetScl entity t _ hF hD, explainValueList_cons]
  simp [explainValueList, childStore, storedValue, GoMmsValue.Value]

/-- C7, witness: the wrapper around Float 12.5 under the declared attributes
`mag` (MX) and `q` (ST). -/
theorem C7_single_wrapper_witness :
    ExplainDataSetValues
        [.mk MMS_STRUCTURE (.slice [.mk MMS_STRUCTURE (.slice [float12_5])])]
        (exampleDataSet [⟨"mag", "MX"⟩, ⟨"q", "ST"⟩] "")
      = .ok [("IED1LD0/A.B.mag", .float64 4623226492472524800)] :=
  C7_single_wrapper (exampleDataSet [⟨"mag", "MX"⟩, ⟨"q", "ST"⟩] "")
    { LDInst := "LD0", Prefix := "", LNClass := "A", LNInst := "", DOName := "B",
      DAName := "" }
    MMS_STRUCTURE MMS_STRUCTURE float12_5 rfl rfl

theorem explainValueList_append (doTyp : DOType) :
    ∀ (pre rest : List GoMmsValue) (i : Nat) (builder : String) (ret : GoMap),
      explainValueList doTyp (pre ++ rest) i builder ret
        = explainValueList doTyp rest (i + pre.length)
            (builderAfter doTyp pre.length i builder)
            (explainValueList doTyp pre i builder ret) := by
  intro pre
  induction pre with
  | nil => intro rest i builder ret; simp [explainValueList, builderAfter]
  | cons v pre ih =>
    intro rest i builder ret
    rw [List.cons_append, explainValueList_cons, ih, explainValueList_cons]
    simp only [List.length_cons, builderAfter]
    congr 1
    omega

theorem childStore_malformed (ref : String) (t : MMSType) (rv : List GoMmsValue)
    (h : 1 < rv.length) : childStore ref (.mk t (.slice rv)) = [] := by
  match rv, h with
  | _ :: _ :: _, _ => simp [childStore, storedValue, GoMmsValue.Value]

theorem childStore_scalar (ref : String) (t : MMSType) (s : GoValue)
    (h : s.isSlice = false) : childStore ref (.mk t s) = [(ref, s)] := by
  cases s <;> simp_all [childStore, storedValue, GoMmsValue.Value, GoValue.isSlice]

/-- The inner loop over a child list split at one child: the assignments
before the child, the child's own, and the assignments after it. -/
theorem explainValueList_split (doTyp : DOType) (pre post : List GoMmsValue)
    (v : GoMmsValue) (builder : String) :
    explainValueList doTyp (pre ++ v :: post) 0 builder []
      = explainValueList doTyp pre 0 builder []
        ++ childStore (builderAfter doTyp (pre.length + 1) 0 builder) v
        ++ explainValueList doTyp post (pre.length + 1)
            (builderAfter doTyp (pre.length + 1) 0 builder) [] := by
  have hb : ∀ (n i : Nat) (b : String),
      builderAfter doTyp (n + 1) i b
        = builderAfter doTyp n i b ++ "." ++ childSegment doTyp (i + n) := by
    intro n
    induction n with
    | zero => intro i b; simp [builderAfter]
    | succ n ih =>
      intro i b
      rw [builderAfter, ih, builderAfter]
      congr 2
      omega
  rw [explainValueList_append, explainValueList_cons, explainValueList_ret, hb]
  simp only [zero_add, List.append_assoc]

/-- The assignments of the outer loop are appended to the map it starts from. -/
theorem explainEntities_ret (dSetScl : DataSetDetail) (values : List GoMmsValue) :
    ∀ (entities : List FCDA) (idx : Nat) (a b : GoMap),
      explainEntities dSetScl values entities idx (a ++ b)
        = (explainEntities dSetScl values entities idx b).map (fun r => a ++ r) := by
  intro entities
  induction entities with
  | nil => intro idx a b; rfl
  | cons entity rest ih =>
    intro idx a b
    simp only [explainEntities]
    cases values[idx]? with
    | none => rfl
    | some val =>
      simp only
      split
      · simp only [GoMap.set, List.append_assoc]
        exact ih _ _ _
      · split
        · rw [explainValueList_ret, List.append_assoc, ih, ← explainValueList_ret]
        · exact ih _ _ _

/-- The outer loop reads `values` only at the positions of its entries. -/
theorem explainEntities_congr (dSetScl : DataSetDetail) (values values' : List GoMmsValue) :
    ∀ (entities : List FCDA) (idx : Nat) (ret : GoMap),
      (∀ j, idx ≤ j → j < idx + entities.length → values[j]? = values'[j]?) →
      explainEntities dSetScl values entities idx ret
        = explainEntities dSetScl values' entities idx ret := by
  intro entities
  induction entities with
  | nil => intro idx ret _; rfl
  | cons entity rest ih =>
    intro idx ret h
    have h0 : values[idx]? = values'[idx]? :=
      h idx (Nat.le_refl _) (by simp)
    have hrest : ∀ j, idx + 1 ≤ j → j < idx + 1 + rest.length → values[j]? = values'[j]? := by
      intro j h1 h2
      exact h j (by omega) (by simp only [List.length_cons]; omega)
    simp only [explainEntities, h0]
    cases values'[idx]? with
    | none => rfl
    | some val =>
      simp only
      split
      · exact ih _ _ hrest
      · split
        · exact ih _ _ hrest
        · exact ih _ _ hrest

/-- The outer loop over a concatenation: first the front entries, then the
rest from where the front stopped. -/
theorem explainEntities_append (dSetScl : DataSetDetail) (values : List GoMmsValue) :
    ∀ (front rest : List FCDA) (idx : Nat) (ret ret' : GoMap),
      explainEntities dSetScl values front idx ret = .ok ret' →
      explainEntities dSetScl values (front ++ rest) idx ret
        = explainEntities dSetScl values rest (idx + front.length) ret' := by
  intro front
  induction front with
  | nil =>
    intro rest idx ret ret' h
    simp only [explainEntities, Except.ok.injEq] at h
    simp [h]
  | cons entity front ih =>
    intro rest idx ret ret' h
    have hidx : idx + (entity :: front).length = idx + 1 + front.length := by
      simp only [List.length_cons]
      omega
    rw [hidx]
    simp only [explainEntities, List.cons_append] at h ⊢
    cases hv : values[idx]? with
    | none => rw [hv] at h; cases h
    | some val =>
      rw [hv] at h
      simp only at h ⊢
      split
      · next hD =>
        rw [if_pos hD] at h
        exact ih _ _ _ _ h
      · next hD =>
        rw [if_neg hD] at h
        split
        · next vl hvl =>
          rw [hvl] at h
          exact ih _ _ _ _ h
        · next hvl =>
          split at h
          · next vl' hvl' => exact absurd hvl' (hvl vl')
          · exact ih _ _ _ _ h

/-- The whole reconciliation around one child of one branch entry: the
assignments of the entries before, of the children before, of the child
itself, of the children after, and of the entries after. Only the child's own
assignment depends on the child. -/
theorem explainDataSetValues_at_child (dSetScl : DataSetDetail) (epre epost : List FCDA)
    (entity : FCDA) (vpre vpost : List GoMmsValue) (t : MMSType)
    (cpre cpost : List GoMmsValue) (R0 Q : GoMap)
    (hF : dSetScl.FCDA = epre ++ entity :: epost)
    (hpre : epre.length = vpre.length) (hpost : epost.length = vpost.length)
    (hD : entity.DAName = "")
    (hR0 : explainEntities dSetScl vpre epre 0 [] = .ok R0)
    (hQ : explainEntities dSetScl (vpre ++ .mk t .nil :: vpost) epost (vpre.length + 1) []
      = .ok Q)
    (v : GoMmsValue) :
    ExplainDataSetValues (vpre ++ .mk t (.slice (cpre ++ v :: cpost)) :: vpost) dSetScl
      = .ok (R0
          ++ (explainValueList
                (dSetScl.GetDOType entity.Prefix entity.LNClass entity.DOName) cpre 0
                (dSetScl.IEDName ++ entity.LDInst ++ "/" ++ entity.Prefix ++ entity.LNClass
                  ++ entity.LNInst ++ "." ++ entity.DOName) []
              ++ childStore
                  (builderAfter
                    (dSetScl.GetDOType entity.Prefix entity.LNClass entity.DOName)
                    (cpre.length + 1) 0
                    (dSetScl.IEDName ++ entity.LDInst ++ "/" ++ entity.Prefix
                      ++ entity.LNClass ++ entity.LNInst ++ "." ++ entity.DOName)) v
              ++ explainValueList
                  (dSetScl.GetDOType entity.Prefix entity.LNClass entity.DOName) cpost
                  (cpre.length + 1)
                  (builderAfter
                    (dSetScl.GetDOType entity.Prefix entity.LNClass entity.DOName)
                    (cpre.length + 1) 0
                    (dSetScl.IEDName ++ entity.LDInst ++ "/" ++ entity.Prefix
                      ++ entity.LNClass ++ entity.LNInst ++ "." ++ entity.DOName)) [])
          ++ Q) := by
  have hlen : dSetScl.FCDA.length
      = (vpre ++ GoMmsValue.mk t (.slice (cpre ++ v :: cpost)) :: vpost).length := by
    simp [hF, hpre, hpost]
  have hfront : explainEntities dSetScl
      (vpre ++ GoMmsValue.mk t (.slice (cpre ++ v :: cpost)) :: vpost) epre 0 [] = .ok R0 := by
    rw [← hR0]
    apply explainEntities_congr
    intro j _ hj
    rw [List.getElem?_append_left (by omega)]
  have hback : explainEntities dSetScl
      (vpre ++ GoMmsValue.mk t (.slice (cpre ++ v :: cpost)) :: vpost) epost
      (vpre.length + 1) [] = .ok Q := by
    rw [← hQ]
    apply explainEntities_congr
    intro j hj _
    rw [List.getElem?_append_right (by omega), List.getElem?_append_right (by omega)]
    obtain ⟨k, hk⟩ : ∃ k, j - vpre.length = k + 1 := ⟨j - vpre.length - 1, by omega⟩
    rw [hk, List.getElem?_cons_succ, List.getElem?_cons_succ]
  have hval : (vpre ++ GoMmsValue.mk t (.slice (cpre ++ v :: cpost)) :: vpost)[epre.length]?
      = some (GoMmsValue.mk t (.slice (cpre ++ v :: cpost))) := by
    rw [hpre, List.getElem?_append_right (Nat.le_refl _)]
    simp
  simp only [ExplainDataSetValues, hlen, ne_eq, not_true_eq_false, if_false]
  rw [hF, explainEntities_append _ _ _ _ _ _ _ hfront]
  simp only [explainEntities, Nat.zero_add, hval, hD, ne_eq, not_true_eq_false, if_false,
    GoMmsValue.Value]
  rw [explainValueList_ret, ← List.append_nil (R0 ++ _), explainEntities_ret, hpre, hback,
    explainValueList_split]
  simp [Except.map]

/-- C8: in a reconciliation where one child of a branch entry carries a list
of more than one element, no assignment is made for that child and the error
is nil; had the child carried a scalar `s` instead, the result would hold the
very same assignments, in the same order, plus the one of that child. -/
theorem C8_malformed_child_skipped (dSetScl : DataSetDetail) (epre epost : List FCDA)
    (entity : FCDA) (vpre vpost : List GoMmsValue) (t bt gt : MMSType)
    (cpre cpost rv : List GoMmsValue) (s : GoValue)
    (hF : dSetScl.FCDA = epre ++ entity :: epost)
    (hpre : epre.length = vpre.length) (hpost : epost.length = vpost.length)
    (hD : entity.DAName = "") (hrv : 1 < rv.length) (hs : s.isSlice = false) :
    ∃ ref before after,
      ExplainDataSetValues
          (vpre ++ .mk t (.slice (cpre ++ .mk bt (.slice rv) :: cpost)) :: vpost) dSetScl
        = .ok (before ++ after)
      ∧ ExplainDataSetValues
          (vpre ++ .mk t (.slice (cpre ++ .mk gt s :: cpost)) :: vpost) dSetScl
        = .ok (before ++ (ref, s) :: after) := by
  obtain ⟨R0, hR0⟩ := explainEntities_isOk dSetScl vpre epre 0 [] (by omega)
  obtain ⟨Q, hQ⟩ := explainEntities_isOk dSetScl (vpre ++ .mk t .nil :: vpost) epost
    (vpre.length + 1) [] (by simp; omega)
  have hbad := explainDataSetValues_at_child dSetScl epre epost entity vpre vpost t cpre cpost
    R0 Q hF hpre hpost hD hR0 hQ (.mk bt (.slice rv))
  have hgood := explainDataSetValues_at_child dSetScl epre epost entity vpre vpost t cpre
    cpost R0 Q hF hpre hpost hD hR0 hQ (.mk gt s)
  rw [childStore_malformed _ _ _ hrv] at hbad
  rw [childStore_scalar _ _ _ hs] at hgood
  simp only [List.append_nil, List.append_assoc, List.singleton_append] at hbad hgood
  rw [← List.append_assoc] at hbad hgood
  exact ⟨_, _, _, hbad, hgood⟩

/-- C8, witness: the second of three children carries a list of two; the
first and the third child are stored as they are when it carries the scalar
0, and nothing is stored for the second. -/
theorem C8_malformed_child_skipped_witness :
    ∃ ref before after,
      ExplainDataSetValues
          [.mk MMS_STRUCTURE
            (.slice [float12_5, .mk MMS_STRUCTURE (.slice [int0, int7]), int7])]
          (exampleDataSet [⟨"mag", "MX"⟩, ⟨"q", "ST"⟩] "")
        = .ok (before ++ after)
      ∧ ExplainDataSetValues
          [.mk MMS_STRUCTURE (.slice [float12_5, .mk MMS_INTEGER (.int64 0), int7])]
          (exampleDataSet [⟨"mag", "MX"⟩, ⟨"q", "ST"⟩] "")
        = .ok (before ++ (ref, .int64 0) :: after) :=
  C8_malformed_child_skipped (exampleDataSet [⟨"mag", "MX"⟩, ⟨"q", "ST"⟩] "") [] []
    { LDInst := "LD0", Prefix := "", LNClass := "A", LNInst := "", DOName := "B",
      DAName := "" }
    [] [] MMS_STRUCTURE MMS_STRUCTURE MMS_INTEGER [float12_5] [int7] [int0, int7] (.int64 0)
    rfl rfl rfl rfl (by decide) rfl

/-! ## The optimised builder against the naive one -/

theorem cStringToGoString_eq_GoString (cStr : Option String) :
    cStringToGoString cStr = GoString cStr := by
  cases cStr with
  | none => rfl
  | some str =>
    simp only [cStringToGoString, GoString]
    split
    · next h =>
      cases str with
      | mk data =>
        have hd : data = [] := List.length_eq_zero.mp h
        subst hd
        rfl
    · rfl

/-- Both builders agree on every value of size at most `n`. -/
theorem resolveValueInline_eq_of_size (client : IedClient) :
    ∀ (n : Nat) (value : MmsValue), sizeOf value ≤ n → ∀ valueType : MMSType,
      resolveValueInline client value valueType = resolveValue client value valueType := by
  intro n
  induction n with
  | zero =>
    intro value h
    cases value
    simp only [MmsValue.mk.sizeOf_spec] at h
    omega
  | succ n ih =>
    intro value h valueType
    have hnodes : value.elements.map (inlineNode client)
        = value.elements.map (naiveNode client) := by
      apply List.map_congr_left
      intro e he
      have hlt : sizeOf e < sizeOf value := by
        cases value with
        | mk t b d i str bs u es =>
          have := List.sizeOf_lt_of_mem (show e ∈ es from he)
          simp only [MmsValue.mk.sizeOf_spec]
          omega
      simp only [inlineNode, naiveNode, ih e (by omega)]
    cases valueType with
    | MMS_STRUCTURE =>
      rw [(resolveValue_structure client value).1, (resolveValue_structure client value).2,
        hnodes]
    | MMS_ARRAY =>
      rw [(resolveValue_array client value).1, (resolveValue_array client value).2]
    | MMS_STRING =>
      rw [resolveValueInline, resolveValue, ← cStringToGoString_eq_GoString]
      cases MmsValue_toString value <;> rfl
    | MMS_VISIBLE_STRING =>
      rw [resolveValueInline, resolveValue, ← cStringToGoString_eq_GoString]
      cases MmsValue_toString value <;> rfl
    | _ => rw [resolveValueInline, resolveValue]

/-- C12: the optimised builder refines the naive one. For every client (either
setting of `withoutTimestamps`), every adapter value and every type tag, the
`Value` that `resolveValueInline` leaves in its target is the value
`resolveValue` returns, and `digIntoStructureOptimized` returns the same list
of nodes as `digIntoStructure`. -/
theorem C12_optimised_refines_naive (client : IedClient) (value : MmsValue)
    (valueType : MMSType) :
    resolveValueInline client value valueType = resolveValue client value valueType
      ∧ digIntoStructureOptimized client value valueType
        = digIntoStructure client value valueType := by
  refine ⟨resolveValueInline_eq_of_size client _ value (Nat.le_refl _) valueType, ?_⟩
  by_cases h : valueType = MMS_STRUCTURE
  · subst h
    rw [digIntoStructureOptimized_structure, digIntoStructure_structure]
    apply List.map_congr_left
    intro e _
    simp only [inlineNode, naiveNode,
      resolveValueInline_eq_of_size client _ e (Nat.le_refl _)]
  · rw [digIntoStructureOptimized_of_ne _ _ _ h, digIntoStructure_of_ne _ _ _ h]

/-! ## Claims on the structural model walker -/

theorem browseAttributes_isSome (browseSDI : String → Option (List SDI)) (ref : String) :
    ∀ (names : List String) (dais : List DAI),
      (∀ name ∈ names, (browseSDI (ref ++ "." ++ name)).isSome = true) →
      (browseAttributes browseSDI ref names dais).isSome = true := by
  intro names
  induction names with
  | nil => intro dais _; rfl
  | cons name rest ih =>
    intro dais h
    obtain ⟨sdi, hsdi⟩ := Option.isSome_iff_exists.mp (h name (List.mem_cons_self _ _))
    simp only [browseAttributes, hsdi]
    exact ih _ (fun n hn => h n (List.mem_cons_of_mem _ hn))

theorem browseSubdataObjects_isSome (browseDAI : String → Option (List DAI))
    (browseSDI : String → Option (List SDI)) (ref : String) :
    ∀ (names : List String) (sdis : List SDI),
      (∀ name ∈ names, (browseDAI (ref ++ "." ++ name)).isSome = true
        ∧ (browseSDI (ref ++ "." ++ name)).isSome = true) →
      (browseSubdataObjects browseDAI browseSDI ref names sdis).isSome = true := by
  intro names
  induction names with
  | nil => intro sdis _; rfl
  | cons name rest ih =>
    intro sdis h
    obtain ⟨dai, hdai⟩ := Option.isSome_iff_exists.mp (h name (List.mem_cons_self _ _)).1
    obtain ⟨sdi, hsdi⟩ := Option.isSome_iff_exists.mp (h name (List.mem_cons_self _ _)).2
    simp only [browseSubdataObjects, hdai, hsdi]
    exact ih _ (fun n hn => h n (List.mem_cons_of_mem _ hn))

/-- Enough fuel: where the data directory below `ref` is exhausted within
`fuel` levels, both recursive walks return. -/
theorem browse_isSome_of_bounded (connection : IedConnection) :
    ∀ (fuel : Nat) (ref : String), dataDirectoryBounded connection fuel ref = true →
      (BrowseDataAttributesSCL connection fuel ref).isSome = true
        ∧ (BrowseSDISCL connection fuel ref).isSome = true := by
  intro fuel
  induction fuel with
  | zero => intro ref h; simp [dataDirectoryBounded] at h
  | succ fuel ih =>
    intro ref h
    simp only [dataDirectoryBounded] at h
    simp only [BrowseDataAttributesSCL, BrowseSDISCL]
    by_cases he : (connection.getDataDirectory ref).clientError ≠ 0
    · simp [he]
    · rw [if_neg he] at h
      rw [if_neg he, if_neg he]
      rw [List.all_eq_true] at h
      exact ⟨browseAttributes_isSome _ _ _ _ (fun n hn => (ih _ (h n hn)).2),
        browseSubdataObjects_isSome _ _ _ _ _ (fun n hn => ih _ (h n hn))⟩

/-- The loop over the data objects of one node appends one entry per name. -/
theorem browseDataObjects_eq (connection : IedConnection) (fuel : Nat)
    (deviceName logicalNodeName : String) :
    ∀ (names : List String) (ln : LN),
      (∀ name ∈ names, dataDirectoryBounded connection fuel
        (deviceName ++ "/" ++ logicalNodeName ++ "." ++ name) = true) →
      browseDataObjects connection fuel deviceName logicalNodeName names ln
        = some { ln with
            DOI := ln.DOI ++ names.map (doiOf connection fuel deviceName logicalNodeName) } := by
  intro names
  induction names with
  | nil => intro ln _; simp [browseDataObjects]
  | cons name rest ih =>
    intro ln h
    obtain ⟨dai, hdai⟩ := Option.isSome_iff_exists.mp
      (browse_isSome_of_bounded connection fuel _ (h name (List.mem_cons_self _ _))).1
    simp only [browseDataObjects, hdai]
    rw [ih _ (fun n hn => h n (List.mem_cons_of_mem _ hn))]
    simp [doiOf, hdai]

/-- The loop over the nodes of one device appends one entry per name. -/
theorem browseLogicalNodes_eq (connection : IedConnection) (fuel : Nat)
    (deviceName : String) :
    ∀ (names : List String) (lDevice : LDevice),
      (∀ name ∈ names, ∀ dataObjectName ∈
          (connection.getLogicalNodeDirectory (deviceName ++ "/" ++ name)).list,
        dataDirectoryBounded connection fuel
          (deviceName ++ "/" ++ name ++ "." ++ dataObjectName) = true) →
      browseLogicalNodes connection fuel deviceName names lDevice
        = some { lDevice with
            LN := lDevice.LN ++ names.map (lnOf connection fuel deviceName) } := by
  intro names
  induction names with
  | nil => intro lDevice _; simp [browseLogicalNodes]
  | cons name rest ih =>
    intro lDevice h
    simp only [browseLogicalNodes]
    rw [browseDataObjects_eq connection fuel deviceName name _ _
      (h name (List.mem_cons_self _ _))]
    simp only
    rw [ih _ (fun n hn => h n (List.mem_cons_of_mem _ hn))]
    simp [lnOf]

/-- The loop over the devices appends one entry per device whose directory
fetch succeeds and passes over the others. -/
theorem browseDevices_eq (connection : IedConnection) (fuel : Nat) :
    ∀ (names : List String) (scl : SCL),
      (∀ name ∈ names, (connection.getLogicalDeviceDirectory name).clientError = 0 →
        ∀ logicalNodeName ∈ (connection.getLogicalDeviceDirectory name).list,
        ∀ dataObjectName ∈
          (connection.getLogicalNodeDirectory (name ++ "/" ++ logicalNodeName)).list,
        dataDirectoryBounded connection fuel
          (name ++ "/" ++ logicalNodeName ++ "." ++ dataObjectName) = true) →
      browseDevices connection fuel names scl
        = some { scl with
            IED := scl.IED
              ++ (names.filter (deviceDirectoryOk connection)).map (iedOf connection fuel) } := by
  intro names
  induction names with
  | nil => intro scl _; simp [browseDevices]
  | cons name rest ih =>
    intro scl h
    simp only [browseDevices]
    by_cases he : (connection.getLogicalDeviceDirectory name).clientError ≠ 0
    · rw [if_pos he, ih _ (fun n hn => h n (List.mem_cons_of_mem _ hn))]
      have hf : deviceDirectoryOk connection name = false := by
        simp [deviceDirectoryOk, he]
      rw [List.filter_cons_of_neg (by simp [hf])]
    · rw [if_neg he]
      have he0 : (connection.getLogicalDeviceDirectory name).clientError = 0 := by
        omega
      rw [browseLogicalNodes_eq connection fuel name _ _
        (h name (List.mem_cons_self _ _) he0)]
      simp only
      rw [ih _ (fun n hn => h n (List.mem_cons_of_mem _ hn))]
      have hf : deviceDirectoryOk connection name = true := by
        simp [deviceDirectoryOk, he0]
      rw [List.filter_cons_of_pos hf]
      simp [iedOf]

theorem modelBounded_iff (connection : IedConnection) (fuel : Nat)
    (h : modelBounded connection fuel = true) :
    ∀ name ∈ connection.getLogicalDeviceList.list,
      (connection.getLogicalDeviceDirectory name).clientError = 0 →
      ∀ logicalNodeName ∈ (connection.getLogicalDeviceDirectory name).list,
      ∀ dataObjectName ∈
        (connection.getLogicalNodeDirectory (name ++ "/" ++ logicalNodeName)).list,
      dataDirectoryBounded connection fuel
        (name ++ "/" ++ logicalNodeName ++ "." ++ dataObjectName) = true := by
  intro name hn he ln hln o ho
  simp only [modelBounded, List.all_eq_true] at h
  have h1 := h name hn
  rw [if_neg (by omega)] at h1
  simp only [List.all_eq_true] at h1
  exact h1 ln hln o ho

theorem refBelow_refl (ref : String) : refBelow ref ref :=
  List.prefix_refl _

theorem refBelow_append (base : String) (tail : String) : refBelow base (base ++ tail) := by
  simp only [refBelow, String.data_append]
  exact List.prefix_append _ _

theorem refBelow_trans {a b c : String} (h1 : refBelow a b) (h2 : refBelow b c) :
    refBelow a c :=
  List.IsPrefix.trans h1 h2

theorem browseAttributes_congr (f g : String → Option (List SDI)) (ref : String) :
    ∀ (names : List String) (dais : List DAI),
      (∀ name ∈ names, f (ref ++ "." ++ name) = g (ref ++ "." ++ name)) →
      browseAttributes f ref names dais = browseAttributes g ref names dais := by
  intro names
  induction names with
  | nil => intro dais _; rfl
  | cons name rest ih =>
    intro dais h
    simp only [browseAttributes, h name (List.mem_cons_self _ _)]
    cases g (ref ++ "." ++ name) with
    | none => rfl
    | some sdi => exact ih _ (fun n hn => h n (List.mem_cons_of_mem _ hn))

theorem browseSubdataObjects_congr (f f' : String → Option (List DAI))
    (g g' : String → Option (List SDI)) (ref : String) :
    ∀ (names : List String) (sdis : List SDI),
      (∀ name ∈ names, f (ref ++ "." ++ name) = f' (ref ++ "." ++ name)
        ∧ g (ref ++ "." ++ name) = g' (ref ++ "." ++ name)) →
      browseSubdataObjects f g ref names sdis = browseSubdataObjects f' g' ref names sdis := by
  intro names
  induction names with
  | nil => intro sdis _; rfl
  | cons name rest ih =>
    intro sdis h
    simp only [browseSubdataObjects, (h name (List.mem_cons_self _ _)).1,
      (h name (List.mem_cons_self _ _)).2]
    cases f' (ref ++ "." ++ name) with
    | none => rfl
    | some dai =>
      cases g' (ref ++ "." ++ name) with
      | none => rfl
      | some sdi => exact ih _ (fun n hn => h n (List.mem_cons_of_mem _ hn))

/-- The recursive walks below `ref` read the connection only through the data
directory fetches at `ref` and below it. -/
theorem browse_congr (connection connection' : IedConnection) :
    ∀ (fuel : Nat) (ref : String),
      (∀ r, refBelow ref r → connection'.getDataDirectory r = connection.getDataDirectory r) →
      BrowseDataAttributesSCL connection' fuel ref = BrowseDataAttributesSCL connection fuel ref
        ∧ BrowseSDISCL connection' fuel ref = BrowseSDISCL connection fuel ref := by
  intro fuel
  induction fuel with
  | zero => intro ref _; exact ⟨rfl, rfl⟩
  | succ fuel ih =>
    intro ref h
    have hchild : ∀ name,
        BrowseDataAttributesSCL connection' fuel (ref ++ "." ++ name)
            = BrowseDataAttributesSCL connection fuel (ref ++ "." ++ name)
          ∧ BrowseSDISCL connection' fuel (ref ++ "." ++ name)
            = BrowseSDISCL connection fuel (ref ++ "." ++ name) := by
      intro name
      apply ih
      intro r hr
      apply h
      refine refBelow_trans ?_ hr
      rw [String.append_assoc]
      exact refBelow_append _ _
    simp only [BrowseDataAttributesSCL, BrowseSDISCL, h ref (refBelow_refl ref)]
    constructor
    · split
      · rfl
      · exact browseAttributes_congr _ _ _ _ _ (fun n _ => (hchild n).2)
    · split
      · rfl
      · exact browseSubdataObjects_congr _ _ _ _ _ _ _ (fun n _ => hchild n)

/-- The entry of a logical node reads the connection only through the
node's own directory fetch and the data directory fetches below the node. -/
theorem lnOf_congr (connection connection' : IedConnection) (fuel : Nat)
    (deviceName logicalNodeName : String)
    (hLN : connection'.getLogicalNodeDirectory (deviceName ++ "/" ++ logicalNodeName)
      = connection.getLogicalNodeDirectory (deviceName ++ "/" ++ logicalNodeName))
    (hDA : ∀ r, refBelow (deviceName ++ "/" ++ logicalNodeName ++ ".") r →
      connection'.getDataDirectory r = connection.getDataDirectory r) :
    lnOf connection' fuel deviceName logicalNodeName
      = lnOf connection fuel deviceName logicalNodeName := by
  simp only [lnOf, hLN]
  congr 1
  apply List.map_congr_left
  intro o _
  simp only [doiOf]
  rw [(browse_congr connection connection' fuel _ (fun r hr =>
    hDA r (refBelow_trans (refBelow_append _ _) hr))).1]

/-- The entry of a logical device reads the connection only through the
device's own directory fetch and the fetches below the device. -/
theorem iedOf_congr (connection connection' : IedConnection) (fuel : Nat)
    (deviceName : String)
    (hLD : connection'.getLogicalDeviceDirectory deviceName
      = connection.getLogicalDeviceDirectory deviceName)
    (hLN : ∀ r, refBelow (deviceName ++ "/") r →
      connection'.getLogicalNodeDirectory r = connection.getLogicalNodeDirectory r)
    (hDA : ∀ r, refBelow (deviceName ++ "/") r →
      connection'.getDataDirectory r = connection.getDataDirectory r) :
    iedOf connection' fuel deviceName = iedOf connection fuel deviceName := by
  simp only [iedOf, hLD]
  congr 5
  apply List.map_congr_left
  intro ln _
  apply lnOf_congr
  · exact hLN _ (refBelow_append _ _)
  · intro r hr
    apply hDA
    refine refBelow_trans ?_ hr
    rw [String.append_assoc]
    exact refBelow_append _ _

theorem dataDirectoryBounded_mono (connection : IedConnection) :
    ∀ (fuel : Nat) (ref : String), dataDirectoryBounded connection fuel ref = true →
      ∀ more, fuel ≤ more → dataDirectoryBounded connection more ref = true := by
  intro fuel
  induction fuel with
  | zero => intro ref h; simp [dataDirectoryBounded] at h
  | succ fuel ih =>
    intro ref h more hle
    obtain ⟨more', rfl⟩ : ∃ more', more = more' + 1 := ⟨more - 1, by omega⟩
    simp only [dataDirectoryBounded] at h ⊢
    by_cases he : (connection.getDataDirectory ref).clientError ≠ 0
    · rw [if_pos he]
    · rw [if_neg he] at h ⊢
      rw [List.all_eq_true] at h ⊢
      exact fun n hn => ih _ (h n hn) more' (by omega)

/-- More fuel than enough does not change what the recursive walks return. -/
theorem browse_fuel (connection : IedConnection) :
    ∀ (fuel : Nat) (ref : String), dataDirectoryBounded connection fuel ref = true →
      ∀ more, fuel ≤ more →
      BrowseDataAttributesSCL connection more ref = BrowseDataAttributesSCL connection fuel ref
        ∧ BrowseSDISCL connection more ref = BrowseSDISCL connection fuel ref := by
  intro fuel
  induction fuel with
  | zero => intro ref h; simp [dataDirectoryBounded] at h
  | succ fuel ih =>
    intro ref h more hle
    obtain ⟨more', rfl⟩ : ∃ more', more = more' + 1 := ⟨more - 1, by omega⟩
    simp only [dataDirectoryBounded] at h
    simp only [BrowseDataAttributesSCL, BrowseSDISCL]
    by_cases he : (connection.getDataDirectory ref).clientError ≠ 0
    · simp [he]
    · rw [if_neg he] at h
      rw [if_neg he, if_neg he, if_neg he, if_neg he]
      rw [List.all_eq_true] at h
      exact ⟨browseAttributes_congr _ _ _ _ _
          (fun n hn => (ih _ (h n hn) more' (by omega)).2),
        browseSubdataObjects_congr _ _ _ _ _ _ _
          (fun n hn => ih _ (h n hn) more' (by omega))⟩

theorem modelBounded_mono (connection : IedConnection) (fuel more : Nat)
    (h : modelBounded connection fuel = true) (hle : fuel ≤ more) :
    modelBounded connection more = true := by
  have hb := modelBounded_iff connection fuel h
  simp only [modelBounded, List.all_eq_true]
  intro name hn
  by_cases he : (connection.getLogicalDeviceDirectory name).clientError ≠ 0
  · rw [if_pos he]
  · rw [if_neg he]
    simp only [List.all_eq_true]
    intro ln hln o ho
    exact dataDirectoryBounded_mono connection fuel _ (hb name hn (by omega) ln hln o ho)
      more hle

/-- More fuel than enough does not change the model in the SCL shape. -/
theorem sclOf_fuel (connection : IedConnection) (fuel more : Nat)
    (h : modelBounded connection fuel = true) (hle : fuel ≤ more) :
    sclOf connection more = sclOf connection fuel := by
  have hb := modelBounded_iff connection fuel h
  simp only [sclOf]
  congr 1
  apply List.map_congr_left
  intro name hn
  rw [List.mem_filter] at hn
  have he : (connection.getLogicalDeviceDirectory name).clientError = 0 := by
    simpa [deviceDirectoryOk] using hn.2
  simp only [iedOf]
  congr 5
  apply List.map_congr_left
  intro ln hln
  simp only [lnOf]
  congr 1
  apply List.map_congr_left
  intro o ho
  simp only [doiOf]
  rw [(browse_fuel connection fuel _ (hb name hn.1 he ln hln o ho) more hle).1]

/-- C11: with each directory fetch a list and an error code. When the logical
device list fetch succeeds and the fuel is enough for the data model,
`BrowseModelToSCL` returns, for that and any larger fuel, a nil error and the
SCL `sclOf`: in device list
order, one IED for every logical device whose own directory fetch succeeds,
each holding one entry per node and data object of its own directories. The
entry of a device, and of a node, is the same for every connection that
answers alike on that device's, or node's, own reference and below it, so a
fetch that fails elsewhere neither removes nor alters it. An error is returned
exactly when the logical device list fetch fails. -/
theorem C11_browse_partial_results (connection : IedConnection) (fuel : Nat) :
    (connection.getLogicalDeviceList.clientError = 0 → modelBounded connection fuel = true →
        ∀ more, fuel ≤ more →
          BrowseModelToSCL connection more = some (.ok (sclOf connection fuel)))
      ∧ (sclOf connection fuel).IED.map (fun ied => ied.Name)
          = connection.getLogicalDeviceList.list.filter (deviceDirectoryOk connection)
      ∧ (∀ (connection' : IedConnection) (deviceName : String),
          connection'.getLogicalDeviceDirectory deviceName
            = connection.getLogicalDeviceDirectory deviceName →
          (∀ r, refBelow (deviceName ++ "/") r →
            connection'.getLogicalNodeDirectory r = connection.getLogicalNodeDirectory r) →
          (∀ r, refBelow (deviceName ++ "/") r →
            connection'.getDataDirectory r = connection.getDataDirectory r) →
          iedOf connection' fuel deviceName = iedOf connection fuel deviceName)
      ∧ (∀ (connection' : IedConnection) (deviceName logicalNodeName : String),
          connection'.getLogicalNodeDirectory (deviceName ++ "/" ++ logicalNodeName)
            = connection.getLogicalNodeDirectory (deviceName ++ "/" ++ logicalNodeName) →
          (∀ r, refBelow (deviceName ++ "/" ++ logicalNodeName ++ ".") r →
            connection'.getDataDirectory r = connection.getDataDirectory r) →
          lnOf connection' fuel deviceName logicalNodeName
            = lnOf connection fuel deviceName logicalNodeName)
      ∧ (∀ code, BrowseModelToSCL connection fuel = some (.error code)
          ↔ connection.getLogicalDeviceList.clientError ≠ 0
            ∧ code = connection.getLogicalDeviceList.clientError) := by
  refine ⟨?_, ?_, ?_, ?_, ?_⟩
  · intro hOk hB more hle
    simp only [BrowseModelToSCL, hOk, ne_eq, not_true_eq_false, if_false]
    rw [browseDevices_eq connection more _ _
      (modelBounded_iff connection more (modelBounded_mono connection fuel more hB hle)),
      ← sclOf_fuel connection fuel more hB hle]
    simp [sclOf]
  · simp only [sclOf, List.map_map]
    have hname : ((fun ied : IED => ied.Name) ∘ iedOf connection fuel) = id := by
      funext d
      simp [iedOf]
    rw [hname, List.map_id]
  · intro connection' deviceName hLD hLN hDA
    exact iedOf_congr connection connection' fuel deviceName hLD hLN hDA
  · intro connection' deviceName logicalNodeName hLN hDA
    exact lnOf_congr connection connection' fuel deviceName logicalNodeName hLN hDA
  · intro code
    simp only [BrowseModelToSCL]
    by_cases he : connection.getLogicalDeviceList.clientError ≠ 0
    · rw [if_pos he]
      constructor
      · intro h
        simp only [Option.some.injEq, Except.error.injEq] at h
        exact ⟨he, h.symm⟩
      · rintro ⟨_, hc⟩
        rw [hc]
    · rw [if_neg he]
      constructor
      · intro h
        split at h <;> simp at h
      · rintro ⟨hne, _⟩
        exact absurd hne he

/-- C11, witness: the walk of the example connection, where the directory
fetch of device `LD1`, of node `LD0/MMXU1` and of data object `LD0/LLN0.Beh`
fails, returns `exampleSCL` with a nil error; and the entry of `LD0` is the
same when the directory fetch of `LD2` fails too. -/
theorem C11_browse_partial_results_witness :
    BrowseModelToSCL exampleConnection 3 = some (.ok exampleSCL)
      ∧ iedOf exampleConnectionLD2Down 3 "LD0" = iedOf exampleConnection 3 "LD0" :=
  ⟨(C11_browse_partial_results exampleConnection 3).1 rfl rfl 3 (Nat.le_refl 3),
    (C11_browse_partial_results exampleConnection 3).2.2.1 exampleConnectionLD2Down "LD0" rfl
      (fun _ _ => rfl) (fun _ _ => rfl)⟩

end Iec61850
